import Mathlib

/-!
# User directory service: controllers, schema and CSV export

A shallow embedding of `controllers/userController.js`, `models/userModel.js`
and `utils/csvUtils.js`.

Conventions of the embedding

* JavaScript strings are lists of characters (`Str`); `undefined`/`null` is `none`.
* The case tables behind `String.prototype.toLowerCase` and behind the store's
  option `i` belong to the platform, not to the repository: the handlers take
  them as the parameter `ct : CaseTables`, and every general statement holds for
  all tables. `asciiTables` are the tables restricted to the ASCII letters, exact
  on ASCII strings, and serve the concrete examples; `sampleTables` add two
  letters outside ASCII.
* Numbers are exact integers.
* The document store (Mongoose over MongoDB), the regular-expression engines and
  the CSV formatter are external to the repository; the parts of their behaviour
  that the controllers rely on are modelled in the sections named after them.
-/

namespace UserDirectory

/-! ## JavaScript strings -/

/-- A JavaScript string value. -/
abbrev Str := List Char

/-- Code points removed by `String.prototype.trim` (WhiteSpace and LineTerminator). -/
def isWhiteSpace (c : Char) : Bool :=
  let n := c.toNat
  n == 9 || n == 10 || n == 11 || n == 12 || n == 13 || n == 32 || n == 160 ||
  n == 5760 || (8192 ≤ n && n ≤ 8202) || n == 8232 || n == 8233 || n == 8239 ||
  n == 8287 || n == 12288 || n == 65279

/-- Drop leading white space. -/
def trimStart : Str → Str
  | [] => []
  | c :: cs => if isWhiteSpace c then trimStart cs else c :: cs

/-- JavaScript `s.trim()`. -/
def trim (s : Str) : Str :=
  (trimStart (trimStart s).reverse).reverse

/-- The case tables of the platform. `toLowerCase` is
`String.prototype.toLowerCase` of the JavaScript engine. `foldCase` sends a
character to the representative of its caseless set in the store's pattern
engine: under option `i` a literal of the pattern matches a character of the
subject when both have the same representative. -/
structure CaseTables where
  toLowerCase : Str → Str
  foldCase : Char → Char

/-- Lower-case one character of the ASCII range; other characters are kept. -/
def asciiLowerChar (c : Char) : Char :=
  if 65 ≤ c.toNat ∧ c.toNat ≤ 90 then Char.ofNat (c.toNat + 32) else c

/-- The case tables restricted to the ASCII letters `A`..`Z`: what the platform
tables do on ASCII strings. -/
def asciiTables : CaseTables :=
  { toLowerCase := fun s => s.map asciiLowerChar
    foldCase := asciiLowerChar }

/-- JavaScript `a || b` on optional strings: `undefined`, `null` and `''` are falsy. -/
def jsOr (a b : Option Str) : Option Str :=
  match a with
  | some (c :: cs) => some (c :: cs)
  | _ => b

/-- JavaScript `a || ''` on an optional string. -/
def orEmpty (a : Option Str) : Str :=
  (jsOr a (some [])).getD []

/-- JavaScript truthiness of an optional string. -/
def truthy (a : Option Str) : Bool :=
  match a with
  | some (_ :: _) => true
  | _ => false

/-! ## Regular expressions

A regular-expression core shared by the schema's `match` validator (a JavaScript
`RegExp`) and the store's `$regex` operator. Matching is by Brzozowski
derivatives; `Regex.Matches` is the reference semantics. -/

/-- Regular expressions over character predicates. -/
inductive Regex where
  | empty : Regex
  | eps : Regex
  | sym (p : Char → Bool) : Regex
  | alt (r s : Regex) : Regex
  | seq (r s : Regex) : Regex
  | star (r : Regex) : Regex

namespace Regex

/-- The strings a regular expression denotes. -/
inductive Matches : Regex → Str → Prop
  | eps : Matches eps []
  | sym {p : Char → Bool} {c : Char} (h : p c = true) : Matches (sym p) [c]
  | altL {r s : Regex} {w : Str} (h : Matches r w) : Matches (alt r s) w
  | altR {r s : Regex} {w : Str} (h : Matches s w) : Matches (alt r s) w
  | seq {r s : Regex} {u v : Str} (hu : Matches r u) (hv : Matches s v) :
      Matches (seq r s) (u ++ v)
  | starNil {r : Regex} : Matches (star r) []
  | starCons {r : Regex} {u v : Str} (hu : Matches r u) (hv : Matches (star r) v) :
      Matches (star r) (u ++ v)

/-- Does the expression accept the empty string? -/
def nullable : Regex → Bool
  | empty => false
  | eps => true
  | sym _ => false
  | alt r s => nullable r || nullable s
  | seq r s => nullable r && nullable s
  | star _ => true

/-- Brzozowski derivative with respect to one character. -/
def deriv : Regex → Char → Regex
  | empty, _ => empty
  | eps, _ => empty
  | sym p, c => if p c then eps else empty
  | alt r s, c => alt (deriv r c) (deriv s c)
  | seq r s, c =>
      if nullable r then alt (seq (deriv r c) s) (deriv s c) else seq (deriv r c) s
  | star r, c => seq (deriv r c) (star r)

/-- Whole-string match. -/
def accepts : Regex → Str → Bool
  | r, [] => nullable r
  | r, c :: cs => accepts (deriv r c) cs

/-- One or more repetitions, `r+`. -/
def plus (r : Regex) : Regex := seq r (star r)

/-- Zero or one occurrence, `r?`. -/
def opt (r : Regex) : Regex := alt r eps

/-- Any string at all. -/
def anything : Regex := star (sym fun _ => true)

/-- Unanchored match: the expression matches somewhere inside the subject. -/
def test (r : Regex) (subject : Str) : Bool :=
  accepts (seq anything (seq r anything)) subject

end Regex

/-! ## The email pattern of the schema -/

/-- JavaScript `\w`: `[A-Za-z0-9_]`. -/
def isWordChar (c : Char) : Bool :=
  let n := c.toNat
  (65 ≤ n && n ≤ 90) || (97 ≤ n && n ≤ 122) || (48 ≤ n && n ≤ 57) || n == 95

/-- The class `[.-]`. -/
def isDotOrDash (c : Char) : Bool :=
  c == '.' || c == '-'

/-- The group `[.-]?\w+`. -/
def emailSegment : Regex :=
  Regex.seq (Regex.opt (Regex.sym isDotOrDash)) (Regex.plus (Regex.sym isWordChar))

/-- The group `\.\w{2,3}`. -/
def emailTld : Regex :=
  Regex.seq (Regex.sym fun c => c == '.')
    (Regex.seq (Regex.sym isWordChar)
      (Regex.seq (Regex.sym isWordChar) (Regex.opt (Regex.sym isWordChar))))

/-- The body of `/^\w+([.-]?\w+)*@\w+([.-]?\w+)*(\.\w{2,3})+$/` from
`userModel.js`; the anchors `^` and `$` make `test` a whole-string match. -/
def emailRegex : Regex :=
  Regex.seq (Regex.plus (Regex.sym isWordChar))
    (Regex.seq (Regex.star emailSegment)
      (Regex.seq (Regex.sym fun c => c == '@')
        (Regex.seq (Regex.plus (Regex.sym isWordChar))
          (Regex.seq (Regex.star emailSegment) (Regex.plus emailTld)))))

/-- The `match` validator of the `email` path. -/
def emailMatches (e : Str) : Bool :=
  emailRegex.accepts e

/-! ## The store's `$regex` operator

The store compiles the pattern string with a Perl-compatible engine. The model
covers the fragment built from ordinary characters, `.`, a backslash followed by
a non-alphanumeric character, and the postfix operators `*`, `+`, `?`. A pattern
outside the fragment (groups, alternation, classes, anchors, counted and stacked
quantifiers, letter escapes) or one the engine rejects has no compiled form here
(`none`), and nothing is stated about it. -/

/-- Characters with a syntactic role in a pattern. -/
def isMetaChar (c : Char) : Bool :=
  c == '\\' || c == '^' || c == '$' || c == '.' || c == '[' || c == ']' || c == '|' ||
  c == '(' || c == ')' || c == '?' || c == '*' || c == '+' || c == '{' || c == '}'

/-- An ordinary character of a pattern stands for itself: it has no syntactic
role and is not NUL (a pattern with a NUL is rejected). -/
def isOrdinaryChar (c : Char) : Bool :=
  !isMetaChar c && c != Char.ofNat 0

/-- ASCII letters and digits: a backslash before one of these is an escape
sequence with a meaning of its own. -/
def isAlphaNum (c : Char) : Bool :=
  let n := c.toNat
  (65 ≤ n && n ≤ 90) || (97 ≤ n && n ≤ 122) || (48 ≤ n && n ≤ 57)

/-- Pattern tokens. -/
inductive Tok where
  | lit (c : Char) : Tok
  | dot : Tok
  | star : Tok
  | plus : Tok
  | quest : Tok

/-- Split a pattern into tokens. -/
def lexPattern : Str → Option (List Tok)
  | [] => some []
  | c :: rest =>
    if c == '\\' then
      match rest with
      | [] => none
      | d :: rest2 =>
        if isAlphaNum d || d == Char.ofNat 0 then none
        else (lexPattern rest2).map (Tok.lit d :: ·)
    else if c == '.' then (lexPattern rest).map (Tok.dot :: ·)
    else if c == '*' then (lexPattern rest).map (Tok.star :: ·)
    else if c == '+' then (lexPattern rest).map (Tok.plus :: ·)
    else if c == '?' then (lexPattern rest).map (Tok.quest :: ·)
    else if isOrdinaryChar c then (lexPattern rest).map (Tok.lit c :: ·)
    else none

/-- The expression of a literal character; with option `i` it matches every
character of the same caseless set. -/
def litRegex (fold : Char → Char) (caseless : Bool) (c : Char) : Regex :=
  if caseless then Regex.sym (fun d => fold d == fold c)
  else Regex.sym (fun d => d == c)

/-- The expression of `.`: any character but a line feed. -/
def dotRegex : Regex :=
  Regex.sym (fun d => d != '\n')

/-- The expression of an atom token. -/
def atomRegex (fold : Char → Char) (caseless : Bool) : Tok → Option Regex
  | Tok.lit c => some (litRegex fold caseless c)
  | Tok.dot => some dotRegex
  | _ => none

/-- The operator of a quantifier token. -/
def quantRegex : Tok → Option (Regex → Regex)
  | Tok.star => some Regex.star
  | Tok.plus => some Regex.plus
  | Tok.quest => some Regex.opt
  | _ => none

/-- Does the token list start with a quantifier? -/
def startsWithQuant : List Tok → Bool
  | t :: _ => (quantRegex t).isSome
  | [] => false

/-- Build the expression of a token list: a sequence of atoms, each with at most
one quantifier. -/
def buildRegex (fold : Char → Char) (caseless : Bool) : List Tok → Option Regex
  | [] => some Regex.eps
  | t :: rest =>
    match atomRegex fold caseless t with
    | none => none
    | some a =>
      match rest with
      | [] => some (Regex.seq a Regex.eps)
      | q :: rest2 =>
        match quantRegex q with
        | some f =>
          if startsWithQuant rest2 then none
          else (buildRegex fold caseless rest2).map (Regex.seq (f a))
        | none => (buildRegex fold caseless (q :: rest2)).map (Regex.seq a)

/-- Compile `{ $regex: pattern, $options: options }`. Only the options `''` and
`'i'` are modelled. -/
def compileRegex (ct : CaseTables) (pattern options : Str) : Option Regex :=
  if options = ['i'] then (lexPattern pattern).bind (buildRegex ct.foldCase true)
  else if options = [] then (lexPattern pattern).bind (buildRegex ct.foldCase false)
  else none

/-! ## `parseInt` -/

/-- Value of a digit character in radix up to 36. -/
def digitValue (c : Char) : Option Nat :=
  let n := c.toNat
  if 48 ≤ n ∧ n ≤ 57 then some (n - 48)
  else if 97 ≤ n ∧ n ≤ 122 then some (n - 97 + 10)
  else if 65 ≤ n ∧ n ≤ 90 then some (n - 65 + 10)
  else none

/-- Read the longest prefix of digits of the radix, accumulating its value;
`none` when there is no digit at all. -/
def readDigits (radix : Nat) : Option Nat → Str → Option Nat
  | acc, [] => acc
  | acc, c :: cs =>
    match digitValue c with
    | some d => if d < radix then readDigits radix (some (acc.getD 0 * radix + d)) cs else acc
    | none => acc

/-- Digits after the sign: a `0x`/`0X` prefix selects radix 16, otherwise radix 10. -/
def parseUnsigned : Str → Option Nat
  | '0' :: 'x' :: cs => readDigits 16 none cs
  | '0' :: 'X' :: cs => readDigits 16 none cs
  | cs => readDigits 10 none cs

/-- JavaScript `parseInt(s)` of a query parameter; `none` is `NaN`. Values are
exact integers. -/
def parseInt (s : Option Str) : Option Int :=
  match s with
  | none => none
  | some raw =>
    match trimStart raw with
    | '-' :: cs => (parseUnsigned cs).map (fun n => -(n : Int))
    | '+' :: cs => (parseUnsigned cs).map (fun n => (n : Int))
    | cs => (parseUnsigned cs).map (fun n => (n : Int))

/-- JavaScript `n || d` on numbers: `NaN` and `0` are falsy. -/
def numOr (n : Option Int) (d : Int) : Int :=
  match n with
  | some k => if k = 0 then d else k
  | none => d

/-! ## User documents and the schema of `userModel.js` -/

/-- The nine editable paths of the schema. -/
inductive Field where
  | first_name | last_name | email | phone | address | city | state | zip_code | country
deriving DecidableEq

/-- A stored user document: the nine schema paths, the identifier and the two
time stamps added by `timestamps: true`. -/
structure User where
  id : Nat
  first_name : Option Str
  last_name : Option Str
  email : Option Str
  phone : Option Str
  address : Option Str
  city : Option Str
  state : Option Str
  zip_code : Option Str
  country : Option Str
  createdAt : Nat
  updatedAt : Nat
deriving DecidableEq

/-- The request body of create and update: each path is a string or absent. -/
structure Body where
  first_name : Option Str := none
  last_name : Option Str := none
  email : Option Str := none
  phone : Option Str := none
  address : Option Str := none
  city : Option Str := none
  state : Option Str := none
  zip_code : Option Str := none
  country : Option Str := none
deriving DecidableEq

/-- Read a path of a document. -/
def User.get (u : User) : Field → Option Str
  | Field.first_name => u.first_name
  | Field.last_name => u.last_name
  | Field.email => u.email
  | Field.phone => u.phone
  | Field.address => u.address
  | Field.city => u.city
  | Field.state => u.state
  | Field.zip_code => u.zip_code
  | Field.country => u.country

/-- Read a path of a request body. -/
def Body.get (b : Body) : Field → Option Str
  | Field.first_name => b.first_name
  | Field.last_name => b.last_name
  | Field.email => b.email
  | Field.phone => b.phone
  | Field.address => b.address
  | Field.city => b.city
  | Field.state => b.state
  | Field.zip_code => b.zip_code
  | Field.country => b.country

/-- The setters the schema attaches to a path: `trim: true` on all nine,
`lowercase: true` on `email` (the value is lower-cased, then trimmed). They run
when a path is assigned and when a query filter on the path is cast. -/
def castField (ct : CaseTables) (f : Field) (v : Option Str) : Option Str :=
  match f with
  | Field.email => v.map (fun s => trim (ct.toLowerCase s))
  | _ => v.map trim

/-- The `required` validator: the value is a non-empty string. -/
def requiredOk (v : Option Str) : Bool :=
  truthy v

/-- The validators of the schema: `first_name`, `last_name` and `email` are
required, `email` matches the pattern. -/
def validate (u : User) : Bool :=
  requiredOk u.first_name && requiredOk u.last_name && requiredOk u.email &&
  (match u.email with
   | some e => emailMatches e
   | none => false)

/-! ## The document store -/

/-- The collection in insertion order, and the next identifier to assign. -/
structure Db where
  users : List User
  nextId : Nat
deriving DecidableEq

/-- What a handler can throw. -/
inductive Failure where
  | message (text : String)
  | validationError
  | duplicateKey
  | regexNotCompiled
  | negativeSkip
deriving DecidableEq

/-- One clause `{ path: { $regex: pattern, $options: options } }`. -/
structure RegexClause where
  path : Field
  pattern : Str
  options : Str
deriving DecidableEq

/-- The filters the controllers build. -/
inductive Query where
  | all
  | anyOf (clauses : List RegexClause)
  | emailIs (email : Option Str)
deriving DecidableEq

/-- Does a compiled clause match a document? An absent path never matches. -/
def clauseTest (path : Field) (r : Regex) (u : User) : Bool :=
  match u.get path with
  | some v => r.test v
  | none => false

/-- Compile the clauses of `$or` into one predicate; fails when a pattern does. -/
def compileClauses (ct : CaseTables) : List RegexClause → Option (User → Bool)
  | [] => some (fun _ => false)
  | c :: cs =>
    match compileRegex ct c.pattern c.options, compileClauses ct cs with
    | some r, some rest => some (fun u => clauseTest c.path r u || rest u)
    | _, _ => none

/-- Compile a filter into a predicate on documents. The value of an equality
filter on `email` is cast by the schema. -/
def compileQuery (ct : CaseTables) : Query → Option (User → Bool)
  | Query.all => some (fun _ => true)
  | Query.anyOf cs => compileClauses ct cs
  | Query.emailIs e => some (fun u => decide (u.email = castField ct Field.email e))

/-- Order of `sort({ createdAt: -1 })`. -/
def newerFirst (a b : User) : Prop :=
  b.createdAt ≤ a.createdAt

instance : DecidableRel newerFirst :=
  fun a b => inferInstanceAs (Decidable (b.createdAt ≤ a.createdAt))

/-- The documents matching a predicate, sorted by creation time descending. -/
def findSorted (db : Db) (p : User → Bool) : List User :=
  (db.users.filter p).insertionSort newerFirst

/-- Cursor `limit(n)`: zero means no limit, a negative value counts as its
absolute value. -/
def applyLimit (n : Int) (l : List User) : List User :=
  if n = 0 then l else l.take n.natAbs

/-- `Model.countDocuments(query)`. -/
def countDocuments (ct : CaseTables) (db : Db) (q : Query) : Except Failure Nat :=
  match compileQuery ct q with
  | none => Except.error Failure.regexNotCompiled
  | some p => Except.ok (db.users.filter p).length

/-- `Model.find(query).sort({ createdAt: -1 })`. -/
def findAll (ct : CaseTables) (db : Db) (q : Query) : Except Failure (List User) :=
  match compileQuery ct q with
  | none => Except.error Failure.regexNotCompiled
  | some p => Except.ok (findSorted db p)

/-- `Model.find(query).sort({ createdAt: -1 }).skip(skip).limit(limit)`. -/
def findPage (ct : CaseTables) (db : Db) (q : Query) (skip limit : Int) :
    Except Failure (List User) :=
  match compileQuery ct q with
  | none => Except.error Failure.regexNotCompiled
  | some p =>
    if skip < 0 then Except.error Failure.negativeSkip
    else Except.ok (applyLimit limit ((findSorted db p).drop skip.toNat))

/-- `Model.findOne({ email })`. -/
def findOneByEmail (ct : CaseTables) (db : Db) (email : Option Str) : Option User :=
  db.users.find? (fun u => decide (u.email = castField ct Field.email email))

/-- `Model.findById(id)`. -/
def findById (db : Db) (id : Nat) : Option User :=
  db.users.find? (fun u => u.id == id)

/-- The unique index on `email`: is the value held by a document other than `id`? -/
def emailTaken (db : Db) (id : Nat) (email : Option Str) : Bool :=
  db.users.any (fun u => u.id != id && decide (u.email = email))

/-- The document `Model.create` builds from a body: every path goes through its
setters. -/
def newDocument (ct : CaseTables) (db : Db) (now : Nat) (b : Body) : User :=
  { id := db.nextId
    first_name := castField ct Field.first_name b.first_name
    last_name := castField ct Field.last_name b.last_name
    email := castField ct Field.email b.email
    phone := castField ct Field.phone b.phone
    address := castField ct Field.address b.address
    city := castField ct Field.city b.city
    state := castField ct Field.state b.state
    zip_code := castField ct Field.zip_code b.zip_code
    country := castField ct Field.country b.country
    createdAt := now
    updatedAt := now }

/-- `Model.create(fields)`: validate, check the unique index, insert. -/
def create (ct : CaseTables) (db : Db) (now : Nat) (b : Body) : Except Failure (User × Db) :=
  let u := newDocument ct db now b
  if !validate u then Except.error Failure.validationError
  else if emailTaken db u.id u.email then Except.error Failure.duplicateKey
  else Except.ok (u, { users := db.users ++ [u], nextId := db.nextId + 1 })

/-- Replace the document with the identifier of `u`. -/
def replaceUser (u : User) : List User → List User
  | [] => []
  | v :: vs => if v.id == u.id then u :: vs else v :: replaceUser u vs

/-- The call `doc.save()` on a loaded document `old` whose paths now read `u`:
validate, check the unique index, write. `updatedAt` moves when a path changed. -/
def save (db : Db) (now : Nat) (old u : User) : Except Failure (User × Db) :=
  if !validate u then Except.error Failure.validationError
  else if emailTaken db u.id u.email then Except.error Failure.duplicateKey
  else
    let saved := if u = old then u else { u with updatedAt := now }
    Except.ok (saved, { db with users := replaceUser saved db.users })

/-! ## The handlers of `userController.js` -/

/-- How a handler ends: a response was sent, or an error was thrown while the
response status had the given value (200 until the handler sets it). -/
inductive Reply (α : Type) where
  | sent (status : Nat) (body : α)
  | thrown (status : Nat) (failure : Failure)
deriving DecidableEq

/-- The query string of `GET /api/users`. -/
structure ListParams where
  page : Option Str := none
  limit : Option Str := none
  search : Option Str := none
deriving DecidableEq

/-- The JSON body `getUsers` sends. -/
structure Page where
  data : List User
  total : Nat
  page : Int
  limit : Int
  totalPages : Int
deriving DecidableEq

/-- The filter `getUsers` builds from the search string. -/
def getUsersQuery (search : Str) : Query :=
  if truthy (some search) then
    Query.anyOf
      [ { path := Field.first_name, pattern := search, options := ['i'] },
        { path := Field.last_name, pattern := search, options := ['i'] },
        { path := Field.email, pattern := search, options := ['i'] },
        { path := Field.phone, pattern := search, options := ['i'] },
        { path := Field.city, pattern := search, options := ['i'] },
        { path := Field.country, pattern := search, options := ['i'] } ]
  else Query.all

/-- The value of `parseInt(req.query.page) || 1`. -/
def pageOf (q : ListParams) : Int :=
  numOr (parseInt q.page) 1

/-- The value of `parseInt(req.query.limit) || 10`. -/
def limitOf (q : ListParams) : Int :=
  numOr (parseInt q.limit) 10

/-- The value of `(page - 1) * limit`. -/
def skipOf (q : ListParams) : Int :=
  (pageOf q - 1) * limitOf q

/-- The value of `Math.ceil(total / limit)` for a non-zero `limit`, computed with
integer division: the ceiling of a quotient is minus the floor of its negation. -/
def totalPagesOf (total : Nat) (limit : Int) : Int :=
  if 0 < limit then -((-(total : Int)) / limit) else -((total : Int) / (-limit))

/-- The handler `getUsers`. -/
def getUsers (ct : CaseTables) (db : Db) (q : ListParams) : Reply Page :=
  let page := pageOf q
  let limit := limitOf q
  let search := orEmpty q.search
  let skip := (page - 1) * limit
  let query := getUsersQuery search
  match countDocuments ct db query with
  | Except.error e => Reply.thrown 200 e
  | Except.ok total =>
    match findPage ct db query skip limit with
    | Except.error e => Reply.thrown 200 e
    | Except.ok users =>
      Reply.sent 200
        { data := users, total := total, page := page, limit := limit,
          totalPages := totalPagesOf total limit }

/-- The handler `createUser`, with the store after it. `Model.create` returns a
document or throws, so the `Invalid user data` branch is never taken. -/
def createUser (ct : CaseTables) (db : Db) (now : Nat) (b : Body) : Reply User × Db :=
  match findOneByEmail ct db b.email with
  | some _ =>
    (Reply.thrown 400 (Failure.message "User with this email already exists"), db)
  | none =>
    match create ct db now b with
    | Except.error e => (Reply.thrown 200 e, db)
    | Except.ok (user, db2) => (Reply.sent 201 user, db2)

/-- The nine assignments of `updateUser`: `user.path = req.body.path || user.path`,
each through the setters of its path. -/
def assignFields (ct : CaseTables) (user : User) (b : Body) : User :=
  { user with
    first_name := castField ct Field.first_name (jsOr b.first_name user.first_name)
    last_name := castField ct Field.last_name (jsOr b.last_name user.last_name)
    email := castField ct Field.email (jsOr b.email user.email)
    phone := castField ct Field.phone (jsOr b.phone user.phone)
    address := castField ct Field.address (jsOr b.address user.address)
    city := castField ct Field.city (jsOr b.city user.city)
    state := castField ct Field.state (jsOr b.state user.state)
    zip_code := castField ct Field.zip_code (jsOr b.zip_code user.zip_code)
    country := castField ct Field.country (jsOr b.country user.country) }

/-- The guard `req.body.email && req.body.email !== user.email` followed by the
lookup `findOne({ email: req.body.email })`. -/
def emailConflict (ct : CaseTables) (db : Db) (user : User) (b : Body) : Bool :=
  truthy b.email && decide (b.email ≠ user.email) && (findOneByEmail ct db b.email).isSome

/-- The handler `updateUser`, with the store after it. -/
def updateUser (ct : CaseTables) (db : Db) (now : Nat) (id : Nat) (b : Body) :
    Reply User × Db :=
  match findById db id with
  | none => (Reply.thrown 404 (Failure.message "User not found"), db)
  | some user =>
    if emailConflict ct db user b then
      (Reply.thrown 400 (Failure.message "User with this email already exists"), db)
    else
      match save db now user (assignFields ct user b) with
      | Except.error e => (Reply.thrown 200 e, db)
      | Except.ok (updatedUser, db2) => (Reply.sent 200 updatedUser, db2)

/-! ## The CSV formatter

The stream `fastCsv.format({ headers: true })` with its default options: comma
delimiter, line-feed row delimiter, double-quote quoting, no row delimiter after
the last row. Rows are objects; the column titles are the keys of the first row. -/

/-- A row object: column titles and values in key order. -/
abbrev CsvObject := List (Str × Str)

/-- Characters that make the formatter quote a field (its character class holds
the delimiter, the row delimiter, `|`, carriage return and line feed). -/
def needsQuotes (c : Char) : Bool :=
  c == ',' || c == '\n' || c == '|' || c == '\r'

/-- Double every quote character. -/
def escapeQuotes : Str → Str
  | [] => []
  | c :: cs => if c == '"' then '"' :: '"' :: escapeQuotes cs else c :: escapeQuotes cs

/-- Format one field: NUL characters are dropped; a field with a quote is
escaped and quoted; a field with a special character is quoted. -/
def formatField (field : Str) : Str :=
  let prepared := field.filter (fun c => c != Char.ofNat 0)
  if prepared.any (fun c => c == '"') then ['"'] ++ escapeQuotes prepared ++ ['"']
  else if prepared.any needsQuotes then ['"'] ++ prepared ++ ['"']
  else prepared

/-- Format one row of columns. -/
def formatRow (columns : List Str) : Str :=
  [','].intercalate (columns.map formatField)

/-- The value of a row object under a column title; a missing key is empty. -/
def columnOf (row : CsvObject) (title : Str) : Str :=
  match row.find? (fun kv => decide (kv.1 = title)) with
  | some kv => kv.2
  | none => []

/-- The rows of the document: the header row, then one row per object. Nothing
is written when no object is. -/
def csvRows (objects : List CsvObject) : List Str :=
  match objects with
  | [] => []
  | first :: _ =>
    let headers := first.map Prod.fst
    formatRow headers :: objects.map (fun o => formatRow (headers.map (columnOf o)))

/-- The text the formatter emits. -/
def csvFormat (objects : List CsvObject) : Str :=
  ['\n'].intercalate (csvRows objects)

/-- Number of text lines of a document: one more than its line feeds. -/
def lineCount (text : Str) : Nat :=
  text.count '\n' + 1

/-! ## CSV export -/

/-- The row object written for a user, as in `exportUsersCSV` and in
`formatUsersForCSV`. -/
def csvObject (user : User) : CsvObject :=
  [ ("First Name".toList, orEmpty user.first_name),
    ("Last Name".toList, orEmpty user.last_name),
    ("Email".toList, orEmpty user.email),
    ("Phone".toList, orEmpty user.phone),
    ("Address".toList, orEmpty user.address),
    ("City".toList, orEmpty user.city),
    ("State".toList, orEmpty user.state),
    ("Zip Code".toList, orEmpty user.zip_code),
    ("Country".toList, orEmpty user.country) ]

/-- The function `formatUsersForCSV` of `csvUtils.js`. -/
def formatUsersForCSV (users : List User) : List CsvObject :=
  users.map csvObject

/-- The filter `exportUsersCSV` builds from the search string. -/
def exportQuery (search : Str) : Query :=
  if truthy (some search) then
    Query.anyOf
      [ { path := Field.first_name, pattern := search, options := ['i'] },
        { path := Field.last_name, pattern := search, options := ['i'] },
        { path := Field.email, pattern := search, options := ['i'] } ]
  else Query.all

/-- The `temp` directory next to the controllers: whether it exists, and its
files `users-<stamp>.csv` with their contents. -/
structure FileSystem where
  tempDir : Bool
  tempFiles : List (Nat × Str)
deriving DecidableEq

/-- File-system calls that create, open or remove something. -/
inductive FsCall where
  | mkdir
  | createWriteStream (stamp : Nat)
  | unlink (stamp : Nat)
deriving DecidableEq

/-- How the write stream ends once the file is open: `finish`, or `error` after
some characters reached the file. -/
inductive WriteOutcome where
  | finish
  | error (written : Nat)
deriving DecidableEq

/-- How `res.download` ends: without error, or with an error before or after the
response headers went out. -/
inductive DownloadOutcome where
  | completed
  | failed (headersSent : Bool)
deriving DecidableEq

/-- What the environment decides during one export: the clock and the two outcomes. -/
structure ExportEnv where
  now : Nat
  write : WriteOutcome
  download : DownloadOutcome
deriving DecidableEq

/-- What the client receives from an export. -/
inductive ExportBody where
  | file (name : String) (content : Str)
  | message (text : String)
  | brokenTransfer
deriving DecidableEq

/-- The end of an export: the reply (none when no response is ever produced),
the file system, and the file-system calls made. -/
structure ExportResult where
  reply : Option (Reply ExportBody)
  fs : FileSystem
  calls : List FsCall
deriving DecidableEq

/-- Does the temporary file with this stamp exist? -/
def FileSystem.hasFile (fs : FileSystem) (stamp : Nat) : Bool :=
  fs.tempFiles.any (fun f => f.1 == stamp)

/-- Open the file for writing (created, or truncated) and leave `content` in it. -/
def FileSystem.write (fs : FileSystem) (stamp : Nat) (content : Str) : FileSystem :=
  { fs with tempFiles := (stamp, content) :: fs.tempFiles.filter (fun f => f.1 != stamp) }

/-- Remove the file. -/
def FileSystem.unlink (fs : FileSystem) (stamp : Nat) : FileSystem :=
  { fs with tempFiles := fs.tempFiles.filter (fun f => f.1 != stamp) }

/-- The callback of `res.download`: remove the file if it exists, then report a
transfer error unless the headers are out. -/
def downloadCallback (fs : FileSystem) (calls : List FsCall) (stamp : Nat) (content : Str)
    (outcome : DownloadOutcome) : ExportResult :=
  let fs2 := if fs.hasFile stamp then fs.unlink stamp else fs
  let calls2 := if fs.hasFile stamp then calls ++ [FsCall.unlink stamp] else calls
  match outcome with
  | DownloadOutcome.completed =>
    { reply := some (Reply.sent 200 (ExportBody.file "users.csv" content)),
      fs := fs2, calls := calls2 }
  | DownloadOutcome.failed headersSent =>
    if !headersSent then
      { reply := some (Reply.sent 500 (ExportBody.message "Error downloading file")),
        fs := fs2, calls := calls2 }
    else
      { reply := some (Reply.sent 200 ExportBody.brokenTransfer), fs := fs2, calls := calls2 }

/-- The handler `exportUsersCSV`. The write stream has a `finish` listener only:
when the stream ends in `error`, nothing further runs. -/
def exportUsersCSV (ct : CaseTables) (db : Db) (fs : FileSystem) (env : ExportEnv)
    (search : Option Str) : ExportResult :=
  let query := exportQuery (orEmpty search)
  match findAll ct db query with
  | Except.error e => { reply := some (Reply.thrown 200 e), fs := fs, calls := [] }
  | Except.ok users =>
    if users.length = 0 then
      { reply := some (Reply.thrown 404 (Failure.message "No users found to export")),
        fs := fs, calls := [] }
    else
      let fs1 := if fs.tempDir then fs else { fs with tempDir := true }
      let calls1 := if fs.tempDir then [] else [FsCall.mkdir]
      let calls2 := calls1 ++ [FsCall.createWriteStream env.now]
      let text := csvFormat (users.map csvObject)
      match env.write with
      | WriteOutcome.error written =>
        { reply := none, fs := fs1.write env.now (text.take written), calls := calls2 }
      | WriteOutcome.finish =>
        downloadCallback (fs1.write env.now text) calls2 env.now text env.download

/-! ## Vocabulary of the statements -/

/-- Spec wording: `s` occurs in `v` as a literal substring, letter case ignored. -/
def containsIgnoreCase (ct : CaseTables) (s v : Str) : Prop :=
  s.map ct.foldCase <:+: v.map ct.foldCase

instance (ct : CaseTables) (s v : Str) : Decidable (containsIgnoreCase ct s v) :=
  inferInstanceAs (Decidable (s.map ct.foldCase <:+: v.map ct.foldCase))

/-- Spec wording: the fields the list view searches. -/
def searchFields : List Field :=
  [Field.first_name, Field.last_name, Field.email, Field.phone, Field.city, Field.country]

/-- Spec wording: the field of the record is present and contains `s`. -/
def fieldContains (ct : CaseTables) (s : Str) (u : User) (f : Field) : Prop :=
  match u.get f with
  | some v => containsIgnoreCase ct s v
  | none => False

instance (ct : CaseTables) (s : Str) (u : User) (f : Field) :
    Decidable (fieldContains ct s u f) := by
  unfold fieldContains
  split <;> infer_instance

/-- Spec wording: `s` occurs literally, letter case ignored, in at least one of
the searched fields of the record. -/
def literalMatch (ct : CaseTables) (s : Str) (u : User) : Prop :=
  ∃ f ∈ searchFields, fieldContains ct s u f

instance (ct : CaseTables) (s : Str) (u : User) : Decidable (literalMatch ct s u) :=
  inferInstanceAs (Decidable (∃ f ∈ searchFields, fieldContains ct s u f))

/-- A stored document is normalised when every path is a fixed point of its setters. -/
def User.Normalised (ct : CaseTables) (u : User) : Prop :=
  ∀ f : Field, castField ct f (u.get f) = u.get f

/-- The two properties of `toLowerCase` that make the setters of `email`
idempotent: lower-casing twice is lower-casing once, and lower-casing leaves the
white space at the ends of a string alone. -/
def CaseTables.Lawful (ct : CaseTables) : Prop :=
  (∀ s, ct.toLowerCase (ct.toLowerCase s) = ct.toLowerCase s) ∧
    ∀ s, ct.toLowerCase (trim s) = trim (ct.toLowerCase s)

/-- A request body with one path replaced. -/
def Body.set (b : Body) (f : Field) (v : Option Str) : Body :=
  match f with
  | Field.first_name => { b with first_name := v }
  | Field.last_name => { b with last_name := v }
  | Field.email => { b with email := v }
  | Field.phone => { b with phone := v }
  | Field.address => { b with address := v }
  | Field.city => { b with city := v }
  | Field.state => { b with state := v }
  | Field.zip_code => { b with zip_code := v }
  | Field.country => { b with country := v }

instance : IsTotal User newerFirst :=
  ⟨fun a b => Nat.le_total b.createdAt a.createdAt⟩

instance : IsTrans User newerFirst :=
  ⟨fun _ _ _ hab hbc => Nat.le_trans hbc hab⟩

/-- Spec wording: the header line of the export. -/
def csvHeader : Str :=
  "First Name,Last Name,Email,Phone,Address,City,State,Zip Code,Country".toList

/-- The nine values of a record in header order, an absent one as the empty string. -/
def csvValues (u : User) : List Str :=
  [orEmpty u.first_name, orEmpty u.last_name, orEmpty u.email, orEmpty u.phone,
   orEmpty u.address, orEmpty u.city, orEmpty u.state, orEmpty u.zip_code, orEmpty u.country]

/-- Spec wording: the row of a record, its nine values formatted and joined by commas. -/
def csvLine (u : User) : Str :=
  [','].intercalate ((csvValues u).map formatField)

/-- Number of line feeds inside the nine values of a record. -/
def embeddedLineFeeds (u : User) : Nat :=
  ((csvValues u).map (fun v => v.count '\n')).sum

/-! ## Sample data -/

/-- A stored record. -/
def ann : User :=
  { id := 1, first_name := some "Ann".toList, last_name := some "Lee".toList,
    email := some "ann@x.io".toList, phone := some "555 0100".toList, address := none,
    city := some "Paris".toList, state := none, zip_code := none, country := none,
    createdAt := 5, updatedAt := 5 }

/-- A stored record whose address spans two lines. -/
def bo : User :=
  { id := 2, first_name := some "Bo".toList, last_name := some "Li".toList,
    email := some "bo@x.io".toList, phone := none,
    address := some "1 Main St\nApt 2".toList, city := some "Rome".toList, state := none,
    zip_code := none, country := none, createdAt := 7, updatedAt := 7 }

/-- A third stored record. -/
def cy : User :=
  { id := 3, first_name := some "Cy".toList, last_name := some "Roe".toList,
    email := some "cy@x.io".toList, phone := none, address := none,
    city := some "Oslo".toList, state := none, zip_code := none, country := none,
    createdAt := 6, updatedAt := 6 }

/-- A collection holding `ann` only. -/
def dbAnn : Db :=
  { users := [ann], nextId := 2 }

/-- A collection holding `bo` only. -/
def dbBo : Db :=
  { users := [bo], nextId := 3 }

/-- A collection of three records. -/
def dbThree : Db :=
  { users := [ann, bo, cy], nextId := 4 }

/-- An empty collection. -/
def dbEmpty : Db :=
  { users := [], nextId := 1 }

/-- A file system without the `temp` directory. -/
def fsEmpty : FileSystem :=
  { tempDir := false, tempFiles := [] }

/-- Lower-case one character of a small table: the ASCII letters, `É` (to `é`)
and the Kelvin sign (to `k`). -/
def sampleLowerChar (c : Char) : Char :=
  if c.toNat = 201 then Char.ofNat 233
  else if c.toNat = 8490 then Char.ofNat 107
  else asciiLowerChar c

/-- Case tables that know two letters outside ASCII, to exercise the handlers on
such input: `É`/`é` and the Kelvin sign, whose lower case is the ASCII `k`. -/
def sampleTables : CaseTables :=
  { toLowerCase := fun s => s.map sampleLowerChar
    foldCase := sampleLowerChar }

/-- A stored record whose city starts with a letter outside ASCII. -/
def luc : User :=
  { id := 4, first_name := some "Luc".toList, last_name := some "Roy".toList,
    email := some "luc@x.io".toList, phone := none, address := none,
    city := some "École".toList, state := none, zip_code := none, country := none,
    createdAt := 8, updatedAt := 8 }

/-- A body whose email starts with the Kelvin sign. -/
def bodyKay : Body :=
  { first_name := some "Kay".toList, last_name := some "Low".toList,
    email := some (Char.ofNat 8490 :: "ay@x.io".toList) }

/-- A body with the three required paths, the email padded with blanks. -/
def bodyEve : Body :=
  { first_name := some "Eve".toList, last_name := some "Poe".toList,
    email := some " Eve@X.io ".toList }

/-! # Properties -/

/-! ## Regular expressions: the matcher decides the denotation -/

namespace Regex

theorem matches_empty_iff (w : Str) : Matches empty w ↔ False := by
  constructor
  · intro h; cases h
  · intro h; exact h.elim

theorem matches_eps_iff (w : Str) : Matches eps w ↔ w = [] := by
  constructor
  · intro h; cases h; rfl
  · rintro rfl; exact Matches.eps

theorem matches_sym_iff (p : Char → Bool) (w : Str) :
    Matches (sym p) w ↔ ∃ c, w = [c] ∧ p c = true := by
  constructor
  · intro h; cases h with
    | sym hp => exact ⟨_, rfl, hp⟩
  · rintro ⟨c, rfl, hp⟩; exact Matches.sym hp

theorem matches_alt_iff (r s : Regex) (w : Str) :
    Matches (alt r s) w ↔ Matches r w ∨ Matches s w := by
  constructor
  · intro h; cases h with
    | altL h => exact Or.inl h
    | altR h => exact Or.inr h
  · rintro (h | h)
    · exact Matches.altL h
    · exact Matches.altR h

theorem matches_seq_iff (r s : Regex) (w : Str) :
    Matches (seq r s) w ↔ ∃ u v, w = u ++ v ∧ Matches r u ∧ Matches s v := by
  constructor
  · intro h; cases h with
    | seq hu hv => exact ⟨_, _, rfl, hu, hv⟩
  · rintro ⟨u, v, rfl, hu, hv⟩; exact Matches.seq hu hv

/-- A non-empty match of `star r` starts with a non-empty match of `r`. -/
theorem matches_star_cons {r : Regex} {x : Regex} {w : Str} (h : Matches x w) :
    ∀ c t, x = star r → w = c :: t →
      ∃ u v, t = u ++ v ∧ Matches r (c :: u) ∧ Matches (star r) v := by
  induction h with
  | eps => intro c t hx; cases hx
  | sym _ => intro c t hx; cases hx
  | altL _ _ => intro c t hx; cases hx
  | altR _ _ => intro c t hx; cases hx
  | seq _ _ _ _ => intro c t hx; cases hx
  | starNil => intro c t _ hw; cases hw
  | @starCons r0 u v hu hv _ ihv =>
    intro c t hx hw
    cases hx
    cases u with
    | nil => exact ihv c t rfl (by simpa using hw)
    | cons d u2 =>
      simp only [List.cons_append, List.cons.injEq] at hw
      obtain ⟨rfl, rfl⟩ := hw
      exact ⟨u2, v, rfl, hu, hv⟩

theorem nullable_iff (r : Regex) : nullable r = true ↔ Matches r [] := by
  induction r with
  | empty => simp [nullable, matches_empty_iff]
  | eps => simp [nullable, matches_eps_iff]
  | sym p => simp [nullable, matches_sym_iff]
  | alt r s ihr ihs => simp [nullable, matches_alt_iff, ihr, ihs]
  | seq r s ihr ihs =>
    simp only [nullable, Bool.and_eq_true, ihr, ihs, matches_seq_iff]
    constructor
    · rintro ⟨h1, h2⟩; exact ⟨[], [], rfl, h1, h2⟩
    · rintro ⟨u, v, huv, h1, h2⟩
      have hu : u = [] := by
        cases u with
        | nil => rfl
        | cons _ _ => simp at huv
      have hv : v = [] := by
        cases v with
        | nil => rfl
        | cons _ _ => simp at huv
      subst hu; subst hv; exact ⟨h1, h2⟩
  | star r _ => simp only [nullable, true_iff]; exact Matches.starNil

theorem matches_deriv_iff (r : Regex) (c : Char) (w : Str) :
    Matches (deriv r c) w ↔ Matches r (c :: w) := by
  induction r generalizing w with
  | empty => simp [deriv, matches_empty_iff]
  | eps => simp [deriv, matches_empty_iff, matches_eps_iff]
  | sym p =>
    simp only [deriv, matches_sym_iff]
    by_cases hp : p c = true
    · simp only [hp, if_true, matches_eps_iff]
      constructor
      · rintro rfl; exact ⟨c, rfl, hp⟩
      · rintro ⟨d, hd, _⟩
        simp only [List.cons.injEq] at hd
        exact hd.2
    · simp only [hp, Bool.false_eq_true, if_false, matches_empty_iff, false_iff]
      rintro ⟨d, hd, hpd⟩
      simp only [List.cons.injEq] at hd
      exact hp (hd.1 ▸ hpd)
  | alt r s ihr ihs => simp [deriv, matches_alt_iff, ihr, ihs]
  | seq r s ihr ihs =>
    have key : (Matches (seq r s) (c :: w)) ↔
        (∃ u v, w = u ++ v ∧ Matches r (c :: u) ∧ Matches s v) ∨
          (Matches r [] ∧ Matches s (c :: w)) := by
      rw [matches_seq_iff]
      constructor
      · rintro ⟨u, v, huv, hu, hv⟩
        cases u with
        | nil => right; simp only [List.nil_append] at huv; subst huv; exact ⟨hu, hv⟩
        | cons d u2 =>
          left
          simp only [List.cons_append, List.cons.injEq] at huv
          obtain ⟨rfl, rfl⟩ := huv
          exact ⟨u2, v, rfl, hu, hv⟩
      · rintro (⟨u, v, rfl, hu, hv⟩ | ⟨hu, hv⟩)
        · exact ⟨c :: u, v, rfl, hu, hv⟩
        · exact ⟨[], c :: w, rfl, hu, hv⟩
    rw [key]
    clear key
    simp only [deriv]
    by_cases hn : nullable r = true
    · simp only [hn, if_true, matches_alt_iff, matches_seq_iff, ihr, ihs]
      have h0 := (nullable_iff r).1 hn
      constructor
      · rintro (h | h)
        · exact Or.inl h
        · exact Or.inr ⟨h0, h⟩
      · rintro (h | h)
        · exact Or.inl h
        · exact Or.inr h.2
    · simp only [hn, Bool.false_eq_true, if_false, matches_seq_iff, ihr]
      have h0 : ¬ Matches r [] := fun h => hn ((nullable_iff r).2 h)
      constructor
      · intro h; exact Or.inl h
      · rintro (h | h)
        · exact h
        · exact (h0 h.1).elim
  | star r ih =>
    simp only [deriv, matches_seq_iff, ih]
    constructor
    · rintro ⟨u, v, rfl, hu, hv⟩
      exact Matches.starCons hu hv
    · intro h
      exact matches_star_cons h c w rfl rfl

/-- The derivative matcher decides the denotation. -/
theorem accepts_iff (r : Regex) (w : Str) : accepts r w = true ↔ Matches r w := by
  induction w generalizing r with
  | nil => simpa [accepts] using nullable_iff r
  | cons c cs ih => simp only [accepts, ih, matches_deriv_iff]

theorem matches_anything (w : Str) : Matches anything w := by
  induction w with
  | nil => exact Matches.starNil
  | cons c cs ih =>
    have : Matches (star (sym fun _ => true)) ([c] ++ cs) :=
      Matches.starCons (Matches.sym rfl) ih
    simpa using this

/-- The unanchored matcher finds a match of the expression inside the subject. -/
theorem test_iff (r : Regex) (w : Str) :
    test r w = true ↔ ∃ pre mid post, w = pre ++ mid ++ post ∧ Matches r mid := by
  simp only [test, accepts_iff, matches_seq_iff]
  constructor
  · rintro ⟨pre, rest, rfl, _, mid, post, rfl, hmid, _⟩
    exact ⟨pre, mid, post, by simp, hmid⟩
  · rintro ⟨pre, mid, post, rfl, hmid⟩
    exact ⟨pre, mid ++ post, by simp, matches_anything pre, mid, post, rfl, hmid,
      matches_anything post⟩

end Regex

/-! ## Strings -/

theorem asciiLowerChar_of_upper (c : Char) (h : 65 ≤ c.toNat ∧ c.toNat ≤ 90) :
    (asciiLowerChar c).toNat = c.toNat + 32 := by
  unfold asciiLowerChar
  rw [if_pos h]
  obtain ⟨h1, h2⟩ := h
  generalize c.toNat = n at h1 h2
  interval_cases n <;> rfl

theorem asciiLowerChar_of_not_upper (c : Char) (h : ¬ (65 ≤ c.toNat ∧ c.toNat ≤ 90)) :
    asciiLowerChar c = c := by
  unfold asciiLowerChar
  rw [if_neg h]

theorem asciiLowerChar_idem (c : Char) :
    asciiLowerChar (asciiLowerChar c) = asciiLowerChar c := by
  by_cases h : 65 ≤ c.toNat ∧ c.toNat ≤ 90
  · apply asciiLowerChar_of_not_upper
    rw [asciiLowerChar_of_upper c h]
    omega
  · rw [asciiLowerChar_of_not_upper c h, asciiLowerChar_of_not_upper c h]

theorem isWhiteSpace_asciiLowerChar (c : Char) :
    isWhiteSpace (asciiLowerChar c) = isWhiteSpace c := by
  by_cases h : 65 ≤ c.toNat ∧ c.toNat ≤ 90
  · have h2 := asciiLowerChar_of_upper c h
    obtain ⟨h0, h1⟩ := h
    unfold isWhiteSpace
    simp only [h2]
    generalize c.toNat = n at h0 h1
    interval_cases n <;> rfl
  · rw [asciiLowerChar_of_not_upper c h]

theorem trimStart_of_head (c : Char) (t : Str) (h : isWhiteSpace c = false) :
    trimStart (c :: t) = c :: t := by
  simp [trimStart, h]

theorem trimStart_map_asciiLower (s : Str) :
    trimStart (s.map asciiLowerChar) = (trimStart s).map asciiLowerChar := by
  induction s with
  | nil => rfl
  | cons c t ih =>
    simp only [List.map_cons, trimStart, isWhiteSpace_asciiLowerChar]
    split
    · exact ih
    · rfl

/-- The ASCII tables have the two properties of `toLowerCase`. -/
theorem asciiTables_lawful : asciiTables.Lawful := by
  constructor
  · intro s
    simp [asciiTables, List.map_map, Function.comp_def, asciiLowerChar_idem]
  · intro s
    simp only [asciiTables, trim, trimStart_map_asciiLower, ← List.map_reverse]

theorem truthy_some (s : Str) (h : s ≠ []) : truthy (some s) = true := by
  cases s with
  | nil => exact (h rfl).elim
  | cons c t => rfl

theorem emailMatches_ne_nil (e : Str) (h : emailMatches e = true) : e ≠ [] := by
  rintro rfl
  have h0 : emailMatches [] = false := by decide
  rw [h0] at h
  exact Bool.noConfusion h

/-! ## Search patterns without metacharacters -/

theorem lexPattern_plain (s : Str) (h : ∀ c ∈ s, isOrdinaryChar c = true) :
    lexPattern s = some (s.map Tok.lit) := by
  induction s with
  | nil => rfl
  | cons c t ih =>
    have hord : isOrdinaryChar c = true := h c (List.mem_cons_self c t)
    have ht := ih (fun d hd => h d (List.mem_cons_of_mem c hd))
    have hc : isMetaChar c = false := by
      unfold isOrdinaryChar at hord
      simp only [Bool.and_eq_true, Bool.not_eq_true'] at hord
      exact hord.1
    unfold isMetaChar at hc
    simp only [Bool.or_eq_false_iff] at hc
    have h1 : (c == '\\') = false := hc.1.1.1.1.1.1.1.1.1.1.1.1.1
    have h4 : (c == '.') = false := hc.1.1.1.1.1.1.1.1.1.1.2
    have h10 : (c == '?') = false := hc.1.1.1.1.2
    have h11 : (c == '*') = false := hc.1.1.1.2
    have h12 : (c == '+') = false := hc.1.1.2
    rw [lexPattern.eq_def]
    simp only [h1, h4, h10, h11, h12, ht, hord, Bool.false_eq_true, if_false, if_true,
      Option.map_some', List.map_cons]

theorem matches_litRegex (fold : Char → Char) (c : Char) (w : Str) :
    (litRegex fold true c).Matches w ↔ ∃ x, w = [x] ∧ fold x = fold c := by
  simp [litRegex, Regex.matches_sym_iff]

theorem buildRegex_literal (fold : Char → Char) (s : Str) :
    ∃ r, buildRegex fold true (s.map Tok.lit) = some r ∧
      ∀ w, r.Matches w ↔ w.map fold = s.map fold := by
  induction s with
  | nil =>
    refine ⟨Regex.eps, rfl, ?_⟩
    intro w
    simp [Regex.matches_eps_iff]
  | cons c t ih =>
    obtain ⟨r, hr, hsem⟩ := ih
    cases t with
    | nil =>
      refine ⟨Regex.seq (litRegex fold true c) Regex.eps, rfl, ?_⟩
      intro w
      simp only [Regex.matches_seq_iff, matches_litRegex, Regex.matches_eps_iff,
        List.map_cons, List.map_nil]
      constructor
      · rintro ⟨u, v, rfl, ⟨x, rfl, hx⟩, rfl⟩
        simp [hx]
      · intro hw
        cases w with
        | nil => simp at hw
        | cons x w2 =>
          simp only [List.map_cons, List.cons.injEq, List.map_eq_nil_iff] at hw
          obtain ⟨hx, rfl⟩ := hw
          exact ⟨[x], [], rfl, ⟨x, rfl, hx⟩, rfl⟩
    | cons d t2 =>
      refine ⟨Regex.seq (litRegex fold true c) r, ?_, ?_⟩
      · simp only [List.map_cons] at hr
        simp only [List.map_cons, buildRegex, atomRegex, quantRegex, hr, Option.map_some']
      · intro w
        simp only [Regex.matches_seq_iff, matches_litRegex, hsem]
        constructor
        · rintro ⟨u, v, rfl, ⟨x, rfl, hx⟩, hv⟩
          simp [hx, hv]
        · intro hw
          cases w with
          | nil => simp at hw
          | cons x w2 =>
            simp only [List.map_cons, List.cons.injEq] at hw
            obtain ⟨hx, hrest⟩ := hw
            exact ⟨[x], w2, rfl, ⟨x, rfl, hx⟩, by simpa using hrest⟩

/-- A pattern of ordinary characters compiles, and it finds exactly the
occurrences of itself up to the caseless sets of the engine. -/
theorem compileRegex_plain (ct : CaseTables) (s : Str)
    (h : ∀ c ∈ s, isOrdinaryChar c = true) :
    ∃ r, compileRegex ct s ['i'] = some r ∧
      ∀ v, r.test v = true ↔ containsIgnoreCase ct s v := by
  obtain ⟨r, hr, hsem⟩ := buildRegex_literal ct.foldCase s
  refine ⟨r, by simp [compileRegex, lexPattern_plain s h, hr], ?_⟩
  intro v
  rw [Regex.test_iff]
  simp only [hsem, containsIgnoreCase]
  constructor
  · rintro ⟨pre, mid, post, rfl, hmid⟩
    refine ⟨pre.map ct.foldCase, post.map ct.foldCase, ?_⟩
    simp [hmid]
  · rintro ⟨a, b, hab⟩
    obtain ⟨l1, post, hl, h1, hpost⟩ := List.map_eq_append_iff.1 hab.symm
    obtain ⟨pre, mid, hl1, hpre, hmid⟩ := List.map_eq_append_iff.1 h1
    exact ⟨pre, mid, post, by rw [hl, hl1], hmid⟩

theorem compileQuery_getUsersQuery (ct : CaseTables) (s : Str) (hne : s ≠ []) (r : Regex)
    (hr : compileRegex ct s ['i'] = some r) :
    compileQuery ct (getUsersQuery s) = some (fun u =>
      clauseTest Field.first_name r u || (clauseTest Field.last_name r u ||
      (clauseTest Field.email r u || (clauseTest Field.phone r u ||
      (clauseTest Field.city r u || (clauseTest Field.country r u || false)))))) := by
  cases s with
  | nil => exact (hne rfl).elim
  | cons c t =>
    simp only [getUsersQuery, truthy, if_true, compileQuery, compileClauses, hr]

theorem clauseTest_iff (ct : CaseTables) (s : Str) (r : Regex)
    (hsem : ∀ v, r.test v = true ↔ containsIgnoreCase ct s v) (f : Field) (u : User) :
    clauseTest f r u = true ↔ fieldContains ct s u f := by
  unfold clauseTest fieldContains
  cases u.get f with
  | none => simp
  | some v => simpa using hsem v

/-! ## Search filter (C1) -/

/-- C1, as stated, fails: the search string `par.s` is not a literal substring of
any searched field of the record `ann`, yet the filter `getUsers` builds matches
the record, because the store reads `.` as "any character". -/
theorem getUsers_search_dot_counterexample :
    (compileQuery asciiTables (getUsersQuery "par.s".toList)).map (fun p => p ann) =
        some true ∧
      ¬ literalMatch asciiTables "par.s".toList ann := by
  decide

/-- C1, amended: for every non-empty search string made of ordinary characters
(no NUL and none of the characters with a role in pattern syntax), the filter
`getUsers` builds is accepted by the store and matches a record if and only if
the string occurs as a literal substring, up to the letter case of each
character (the caseless sets of the store, whatever the case tables are), in at
least one of first_name, last_name, email, phone, city, country. -/
theorem getUsers_search_literal (ct : CaseTables) (s : Str) (hne : s ≠ [])
    (hplain : ∀ c ∈ s, isOrdinaryChar c = true) :
    ∃ p, compileQuery ct (getUsersQuery s) = some p ∧
      ∀ u, p u = true ↔ literalMatch ct s u := by
  obtain ⟨r, hr, hsem⟩ := compileRegex_plain ct s hplain
  refine ⟨_, compileQuery_getUsersQuery ct s hne r hr, ?_⟩
  intro u
  show searchFields.any (fun f => clauseTest f r u) = true ↔ literalMatch ct s u
  rw [List.any_eq_true]
  simp only [clauseTest_iff ct s r hsem, literalMatch]

/-- The search string `paris` finds exactly the records with `paris`, in any
letter case, in a searched field, and so finds `ann`, whose city is `Paris`;
with tables that know `É`, the search string `école` finds `luc`, whose city is
`École`. -/
theorem getUsers_search_literal_witness :
    ((∃ p, compileQuery asciiTables (getUsersQuery "paris".toList) = some p ∧
        ∀ u, p u = true ↔ literalMatch asciiTables "paris".toList u) ∧
      literalMatch asciiTables "paris".toList ann) ∧
    ((∃ p, compileQuery sampleTables (getUsersQuery "école".toList) = some p ∧
        ∀ u, p u = true ↔ literalMatch sampleTables "école".toList u) ∧
      literalMatch sampleTables "école".toList luc) :=
  ⟨⟨getUsers_search_literal asciiTables "paris".toList (by decide) (by decide), by decide⟩,
    ⟨getUsers_search_literal sampleTables "école".toList (by decide) (by decide), by decide⟩⟩

/-! ## Paging parameters (C7) -/

theorem numOr_default (n : Option Int) (d : Int) (h : n = none ∨ n = some 0) :
    numOr n d = d := by
  rcases h with rfl | rfl <;> rfl

/-- C7 fails on the code for a negative parameter: with `page=-1` the handler
uses page -1, computes the skip -20 and the store rejects the query; with
`limit=-5` it uses page size -5. Absent, non-numeric and zero values take the
defaults (`numOr_default`). -/
theorem getUsers_negative_page :
    pageOf { page := some "-1".toList } = -1 ∧
      skipOf { page := some "-1".toList } = -20 ∧
      limitOf { limit := some "-5".toList } = -5 ∧
      getUsers asciiTables dbAnn { page := some "-1".toList } =
        Reply.thrown 200 Failure.negativeSkip := by
  decide

/-! ## Update and the record's own email (C6) -/

/-- C6 fails on the code when a record's own email is supplied in another letter
case: `ann` holds `ann@x.io`, the body carries `ANN@x.io`, the guard
`req.body.email !== user.email` passes, the lookup (whose value the schema
lower-cases) finds that same record, and the handler answers 400. -/
theorem updateUser_own_email_other_case :
    findById dbAnn 1 = some ann ∧
      updateUser asciiTables dbAnn 9 1 { email := some "ANN@x.io".toList } =
        (Reply.thrown 400 (Failure.message "User with this email already exists"), dbAnn) := by
  decide

/-! ## Export: clean-up of the temporary file (C2) -/

/-- C2 fails on the code when the write stream ends in `error`: no listener
runs, no response is produced and the file opened for writing stays. -/
theorem exportUsersCSV_write_error_leaves_file :
    (exportUsersCSV asciiTables dbAnn fsEmpty
        { now := 3, write := WriteOutcome.error 0, download := DownloadOutcome.completed }
        none).reply = none ∧
      (exportUsersCSV asciiTables dbAnn fsEmpty
        { now := 3, write := WriteOutcome.error 0, download := DownloadOutcome.completed }
        none).fs.hasFile 3 = true ∧
      (exportUsersCSV asciiTables dbAnn fsEmpty
        { now := 3, write := WriteOutcome.error 0, download := DownloadOutcome.completed }
        none).calls = [FsCall.mkdir, FsCall.createWriteStream 3] := by
  decide

theorem hasFile_write (fs : FileSystem) (stamp : Nat) (content : Str) :
    (fs.write stamp content).hasFile stamp = true := by
  simp [FileSystem.write, FileSystem.hasFile]

theorem hasFile_unlink (fs : FileSystem) (stamp : Nat) :
    (fs.unlink stamp).hasFile stamp = false := by
  simp [FileSystem.unlink, FileSystem.hasFile]

/-- When the write stream finishes, the download callback removes the file,
whether the transfer succeeded or failed. -/
theorem downloadCallback_removes_file (fs : FileSystem) (calls : List FsCall) (stamp : Nat)
    (content : Str) (outcome : DownloadOutcome) :
    (downloadCallback fs calls stamp content outcome).fs.hasFile stamp = false := by
  have key : (if fs.hasFile stamp then fs.unlink stamp else fs).hasFile stamp = false := by
    by_cases h : fs.hasFile stamp = true
    · rw [if_pos h]; exact hasFile_unlink fs stamp
    · rw [if_neg h]; simpa using h
  unfold downloadCallback
  cases outcome with
  | completed => exact key
  | failed headersSent => cases headersSent <;> exact key

theorem findAll_of_compile (ct : CaseTables) (db : Db) (q : Query) (p : User → Bool)
    (hq : compileQuery ct q = some p) : findAll ct db q = Except.ok (findSorted db p) := by
  simp [findAll, hq]

theorem findSorted_perm (db : Db) (p : User → Bool) :
    (findSorted db p).Perm (db.users.filter p) :=
  List.perm_insertionSort newerFirst _

theorem findSorted_sorted (db : Db) (p : User → Bool) :
    List.Sorted newerFirst (findSorted db p) :=
  List.sorted_insertionSort newerFirst _

theorem findSorted_length (db : Db) (p : User → Bool) :
    (findSorted db p).length = (db.users.filter p).length :=
  (findSorted_perm db p).length_eq

/-! ## Export with no matching record (C9) -/

/-- C9: when the filter built from the search string matches no record,
`exportUsersCSV` throws `No users found to export` with status 404, leaves the
file system as it was and makes no file-system call: neither the temp directory
nor a temp file is created or opened. -/
theorem exportUsersCSV_no_match (ct : CaseTables) (db : Db) (fs : FileSystem) (env : ExportEnv)
    (search : Option Str) (p : User → Bool)
    (hq : compileQuery ct (exportQuery (orEmpty search)) = some p)
    (hnone : ∀ u ∈ db.users, p u = false) :
    exportUsersCSV ct db fs env search =
      { reply := some (Reply.thrown 404 (Failure.message "No users found to export")),
        fs := fs, calls := [] } := by
  have hfilter : db.users.filter p = [] := by
    rw [List.filter_eq_nil_iff]
    intro u hu
    simp [hnone u hu]
  have hlen : (findSorted db p).length = 0 := by
    rw [findSorted_length, hfilter]; rfl
  simp only [exportUsersCSV, findAll_of_compile ct db _ p hq, hlen, if_true]

/-- A search for `zzz` in a collection where no name or email contains it. -/
theorem exportUsersCSV_no_match_witness :
    exportUsersCSV asciiTables dbThree fsEmpty
        { now := 3, write := WriteOutcome.finish, download := DownloadOutcome.completed }
        (some "zzz".toList) =
      { reply := some (Reply.thrown 404 (Failure.message "No users found to export")),
        fs := fsEmpty, calls := [] } :=
  exportUsersCSV_no_match asciiTables dbThree fsEmpty _ (some "zzz".toList)
    (fun u => clauseTest Field.first_name
        (Regex.seq (litRegex asciiLowerChar true 'z') (Regex.seq (litRegex asciiLowerChar true 'z')
          (Regex.seq (litRegex asciiLowerChar true 'z') Regex.eps))) u ||
      (clauseTest Field.last_name
        (Regex.seq (litRegex asciiLowerChar true 'z') (Regex.seq (litRegex asciiLowerChar true 'z')
          (Regex.seq (litRegex asciiLowerChar true 'z') Regex.eps))) u ||
      (clauseTest Field.email
        (Regex.seq (litRegex asciiLowerChar true 'z') (Regex.seq (litRegex asciiLowerChar true 'z')
          (Regex.seq (litRegex asciiLowerChar true 'z') Regex.eps))) u || false)))
    rfl (by decide)

/-! ## Paging (C8) -/

/-- The integer-division form of the page count is the ceiling of the quotient. -/
theorem totalPagesOf_eq_ceil (total : Nat) (limit : Int) :
    totalPagesOf total limit = ⌈(total : ℚ) / (limit : ℚ)⌉ := by
  unfold totalPagesOf
  split_ifs with hl
  · have hcast : ((limit.toNat : ℕ) : ℚ) = (limit : ℚ) := by
      have := Int.toNat_of_nonneg hl.le
      exact_mod_cast this
    have hq : ((total : ℚ) / (limit : ℚ)) =
        -(((-(total : Int) : Int) : ℚ) / ((limit.toNat : ℕ) : ℚ)) := by
      rw [hcast]; push_cast; ring
    rw [hq, Int.ceil_neg, Rat.floor_intCast_div_natCast, Int.toNat_of_nonneg hl.le]
  · have hl2 : 0 ≤ -limit := by omega
    have hcast : (((-limit).toNat : ℕ) : ℚ) = ((-limit : Int) : ℚ) := by
      have := Int.toNat_of_nonneg hl2
      exact_mod_cast this
    have hq : ((total : ℚ) / (limit : ℚ)) =
        -((((total : Int) : Int) : ℚ) / (((-limit).toNat : ℕ) : ℚ)) := by
      rw [hcast]; push_cast; ring
    rw [hq, Int.ceil_neg, Rat.floor_intCast_div_natCast, Int.toNat_of_nonneg hl2]

/-- C8: for every collection, accepted filter, page `P ≥ 1` and limit `L ≥ 1`,
`getUsers` answers 200 with the records at positions `(P-1)*L` up to `P*L-1` of
the matching records sorted by creation time descending, that is
`min L (total - (P-1)*L)` records, with `total` the number of matching records
and `totalPages = ceil(total / L)`; with 15 matching records, page 2 and limit
10 it returns 5 records and 2 pages. -/
theorem getUsers_page (ct : CaseTables) (db : Db) (q : ListParams) (P L : Nat) (p : User → Bool)
    (hP : parseInt q.page = some (P : Int)) (hP1 : 1 ≤ P)
    (hL : parseInt q.limit = some (L : Int)) (hL1 : 1 ≤ L)
    (hq : compileQuery ct (getUsersQuery (orEmpty q.search)) = some p) :
    getUsers ct db q = Reply.sent 200
        { data := ((findSorted db p).drop ((P - 1) * L)).take L,
          total := (db.users.filter p).length,
          page := P, limit := L,
          totalPages := ⌈((db.users.filter p).length : ℚ) / (L : ℚ)⌉ } ∧
      List.Sorted newerFirst (findSorted db p) ∧
      (findSorted db p).Perm (db.users.filter p) ∧
      (((findSorted db p).drop ((P - 1) * L)).take L).length =
        min L ((db.users.filter p).length - (P - 1) * L) ∧
      ((db.users.filter p).length = 15 → P = 2 → L = 10 →
        (((findSorted db p).drop ((P - 1) * L)).take L).length = 5 ∧
          ⌈((db.users.filter p).length : ℚ) / (L : ℚ)⌉ = 2) := by
  have hpage : pageOf q = (P : Int) := by
    simp only [pageOf, hP, numOr]
    rw [if_neg (by omega)]
  have hlimit : limitOf q = (L : Int) := by
    simp only [limitOf, hL, numOr]
    rw [if_neg (by omega)]
  have hskip : ((P : Int) - 1) * (L : Int) = (((P - 1) * L : Nat) : Int) := by
    push_cast [Nat.cast_sub hP1]; ring
  have hlen : (((findSorted db p).drop ((P - 1) * L)).take L).length =
      min L ((db.users.filter p).length - (P - 1) * L) := by
    rw [List.length_take, List.length_drop, findSorted_length]
  refine ⟨?_, findSorted_sorted db p, findSorted_perm db p, hlen, ?_⟩
  · have hL0 : ¬ ((L : Int) = 0) := by omega
    have hneg : ¬ ((((P - 1) * L : Nat) : Int) < 0) := by omega
    simp only [getUsers, hpage, hlimit, countDocuments, findPage, hq, hskip, hneg, if_false,
      applyLimit, hL0, Int.toNat_ofNat, Int.natAbs_ofNat, totalPagesOf_eq_ceil,
      Int.cast_natCast]
  · intro h15 h2 h10
    subst h2; subst h10
    rw [hlen, h15]
    refine ⟨by decide, ?_⟩
    rw [Int.ceil_eq_iff]
    constructor <;> norm_num

/-- Page 2 with limit 2 of a collection of three records. -/
theorem getUsers_page_witness :
    getUsers asciiTables dbThree { page := some "2".toList, limit := some "2".toList } =
        Reply.sent 200
          { data := ((findSorted dbThree (fun _ => true)).drop ((2 - 1) * 2)).take 2,
            total := (dbThree.users.filter (fun _ => true)).length,
            page := (2 : Nat), limit := (2 : Nat),
            totalPages :=
              ⌈((dbThree.users.filter (fun _ => true)).length : ℚ) / ((2 : Nat) : ℚ)⌉ } ∧
      ((findSorted dbThree (fun _ => true)).drop ((2 - 1) * 2)).take 2 = [ann] :=
  ⟨(getUsers_page asciiTables dbThree { page := some "2".toList, limit := some "2".toList } 2 2
      (fun _ => true) (by decide) (by decide) (by decide) (by decide) rfl).1, by decide⟩

/-! ## Update (C3, C10) -/

theorem assignFields_get (ct : CaseTables) (user : User) (b : Body) (f : Field) :
    (assignFields ct user b).get f = castField ct f (jsOr (b.get f) (user.get f)) := by
  cases f <;> rfl

theorem assignFields_id (ct : CaseTables)
    (user : User) (b : Body) : (assignFields ct user b).id = user.id :=
  rfl

theorem findById_id (db : Db) (id : Nat) (user : User) (h : findById db id = some user) :
    user.id = id := by
  have := List.find?_some h
  simpa using this

theorem find_replaceUser (saved : User) (id : Nat) (hid : saved.id = id) (l : List User)
    (user : User) (h : l.find? (fun u => u.id == id) = some user) :
    (replaceUser saved l).find? (fun u => u.id == id) = some saved := by
  induction l with
  | nil => simp at h
  | cons v vs ih =>
    by_cases hv : v.id = id
    · simp [replaceUser, hv, hid]
    · have hb : (v.id == id) = false := by simpa using hv
      have h2 : vs.find? (fun u => u.id == id) = some user := by
        simpa [List.find?, hb] using h
      have hne : (v.id == saved.id) = false := by rw [hid]; exact hb
      simp [replaceUser, hne, List.find?, hb, ih h2]

/-- What a successful update stores and returns. -/
theorem updateUser_sent (ct : CaseTables)
    (db : Db) (now id : Nat) (b : Body) (user saved : User) (db2 : Db)
    (hfind : findById db id = some user)
    (hok : updateUser ct db now id b = (Reply.sent 200 saved, db2)) :
    (∀ f, saved.get f = castField ct f (jsOr (b.get f) (user.get f))) ∧
      validate (assignFields ct user b) = true ∧ findById db2 id = some saved := by
  simp only [updateUser, hfind] at hok
  split at hok
  · simp at hok
  · simp only [save] at hok
    split at hok
    · rename_i e heq
      split at heq
      · simp at hok
      · split at heq
        · simp at hok
        · simp at heq
    · rename_i updatedUser db3 heq
      split at heq
      · simp at heq
      · rename_i hval
        split at heq
        · simp at heq
        · simp only [Except.ok.injEq, Prod.mk.injEq] at heq
          simp only [Prod.mk.injEq, Reply.sent.injEq, true_and] at hok
          obtain ⟨hs, hdb⟩ := heq
          obtain ⟨hs2, hdb2⟩ := hok
          subst hs2; subst hdb2
          have hget : ∀ f, updatedUser.get f = (assignFields ct user b).get f := by
            intro f
            rw [← hs]
            split
            · rfl
            · cases f <;> rfl
          have hid : updatedUser.id = id := by
            rw [← hs, ← findById_id db id user hfind]
            split <;> rfl
          refine ⟨fun f => by rw [hget f, assignFields_get ct], by simpa using hval, ?_⟩
          rw [hs] at hdb
          rw [← hdb]
          exact find_replaceUser updatedUser id hid db.users user hfind

/-- C3: for every stored (normalised) record and every partial input on which
`updateUser` succeeds, each of the nine editable fields omitted from the input
has, in the saved and returned record, exactly its value before the update. -/
theorem updateUser_keeps_omitted (ct : CaseTables)
    (db : Db) (now id : Nat) (b : Body) (user saved : User)
    (db2 : Db) (hfind : findById db id = some user) (hnorm : user.Normalised ct)
    (hok : updateUser ct db now id b = (Reply.sent 200 saved, db2)) :
    findById db2 id = some saved ∧ ∀ f, b.get f = none → saved.get f = user.get f := by
  obtain ⟨hget, _, hsaved⟩ := updateUser_sent ct db now id b user saved db2 hfind hok
  refine ⟨hsaved, ?_⟩
  intro f hf
  rw [hget f, hf]
  exact hnorm f

theorem ann_normalised : ann.Normalised asciiTables := by
  intro f
  cases f <;> decide

/-- An update of `ann` that carries a city only. -/
theorem updateUser_keeps_omitted_witness :
    findById (updateUser asciiTables dbAnn 9 1 { city := some "Lyon".toList }).2 1 =
        some { ann with city := some "Lyon".toList, updatedAt := 9 } ∧
      ∀ f, ({ city := some "Lyon".toList } : Body).get f = none →
        ({ ann with city := some "Lyon".toList, updatedAt := 9 } : User).get f = ann.get f :=
  updateUser_keeps_omitted asciiTables dbAnn 9 1 { city := some "Lyon".toList } ann
    { ann with city := some "Lyon".toList, updatedAt := 9 }
    (updateUser asciiTables dbAnn 9 1 { city := some "Lyon".toList }).2 (by decide) ann_normalised
    (by decide)

/-- C10, as stated, fails: an update whose `phone` is one blank is accepted, the
schema trims the value, and the stored phone of `ann` becomes the empty string. -/
theorem updateUser_blank_clears_counterexample :
    ann.phone = some "555 0100".toList ∧
      (updateUser asciiTables dbAnn 9 1 { phone := some " ".toList }).1 =
        Reply.sent 200 { ann with phone := some [], updatedAt := 9 } := by
  decide

theorem jsOr_empty (x : Option Str) : jsOr (some []) x = jsOr none x := rfl

theorem body_set_get (b : Body) (f g : Field) (v : Option Str) :
    (b.set f v).get g = if g = f then v else b.get g := by
  cases f <;> cases g <;> rfl

theorem assignFields_ext (ct : CaseTables) (user : User) (b c : Body)
    (h : ∀ f, jsOr (b.get f) (user.get f) = jsOr (c.get f) (user.get f)) :
    assignFields ct user b = assignFields ct user c := by
  have h1 := h Field.first_name
  have h2 := h Field.last_name
  have h3 := h Field.email
  have h4 := h Field.phone
  have h5 := h Field.address
  have h6 := h Field.city
  have h7 := h Field.state
  have h8 := h Field.zip_code
  have h9 := h Field.country
  simp only [Body.get, User.get] at h1 h2 h3 h4 h5 h6 h7 h8 h9
  simp only [assignFields, h1, h2, h3, h4, h5, h6, h7, h8, h9]

theorem emailConflict_set_none (ct : CaseTables) (db : Db) (user : User) (b : Body) (f : Field)
    (hf : b.get f = some []) :
    emailConflict ct db user b = emailConflict ct db user (b.set f none) := by
  cases f
  case email =>
    have he : b.email = some [] := hf
    simp [emailConflict, Body.set, he, truthy]
  all_goals rfl

/-- C10, amended: a field supplied as the empty string is treated exactly like
an omitted field, so on a stored (normalised) record a successful update keeps
the previous value of such a field. -/
theorem updateUser_empty_as_omitted (ct : CaseTables)
    (db : Db) (now id : Nat) (b : Body) (f : Field)
    (hf : b.get f = some []) :
    updateUser ct db now id b = updateUser ct db now id (b.set f none) ∧
      ∀ user saved db2, findById db id = some user → user.Normalised ct →
        updateUser ct db now id b = (Reply.sent 200 saved, db2) → saved.get f = user.get f := by
  constructor
  · have hassign : ∀ user, assignFields ct user b = assignFields ct user (b.set f none) := by
      intro user
      apply assignFields_ext ct
      intro g
      rw [body_set_get]
      by_cases hg : g = f
      · subst hg; rw [if_pos rfl, hf]; rfl
      · rw [if_neg hg]
    simp only [updateUser, hassign, emailConflict_set_none ct db _ b f hf]
  · intro user saved db2 hfind hnorm hok
    obtain ⟨hget, _, _⟩ := updateUser_sent ct db now id b user saved db2 hfind hok
    rw [hget f, hf, jsOr_empty]
    exact hnorm f

/-- An update of `ann` that carries an empty phone and a city. -/
theorem updateUser_empty_as_omitted_witness :
    updateUser asciiTables dbAnn 9 1 { phone := some [], city := some "Lyon".toList } =
        updateUser asciiTables dbAnn 9 1
          (({ phone := some [], city := some "Lyon".toList } : Body).set Field.phone none) ∧
      ∀ user saved db2, findById dbAnn 1 = some user → user.Normalised asciiTables →
        updateUser asciiTables dbAnn 9 1 { phone := some [], city := some "Lyon".toList } =
          (Reply.sent 200 saved, db2) → saved.get Field.phone = user.get Field.phone :=
  updateUser_empty_as_omitted asciiTables dbAnn 9 1 { phone := some [], city := some "Lyon".toList }
    Field.phone rfl

/-! ## Create (C5) -/

/-- C5, as stated, fails: the email ` Eve@X.io ` passes validation, because the
schema validates the value its setters produce, and the record returned with 201
holds `eve@x.io`, which is not the input lower-cased (that keeps its blanks). -/
theorem createUser_padded_email_counterexample :
    (createUser asciiTables dbAnn 9 bodyEve).1 =
        Reply.sent 201
          { id := 2, first_name := some "Eve".toList, last_name := some "Poe".toList,
            email := some "eve@x.io".toList, phone := none, address := none, city := none,
            state := none, zip_code := none, country := none, createdAt := 9,
            updatedAt := 9 } ∧
      bodyEve.email = some " Eve@X.io ".toList ∧
      asciiTables.toLowerCase " Eve@X.io ".toList = " eve@x.io ".toList ∧
      "eve@x.io".toList ≠ asciiTables.toLowerCase " Eve@X.io ".toList := by
  decide

/-- C5, amended: for every create with valid input (first and last name not
blank, and the email, once lower-cased and trimmed by the schema, matching the
pattern) whose lower-cased and trimmed email is held by no record, `createUser`
answers 201 with a record whose email is the input email lower-cased and
trimmed, which is the input email lower-cased whenever that has no white space
at its ends; and every create that follows with the same email in any letter
case throws `User with this email already exists` with status 400 and leaves the
collection unchanged. -/
theorem createUser_email_normalised_then_conflict (ct : CaseTables) (db : Db) (now : Nat)
    (b : Body) (fn ln e : Str) (hfn : b.first_name = some fn) (hfn2 : trim fn ≠ [])
    (hln : b.last_name = some ln) (hln2 : trim ln ≠ [])
    (he : b.email = some e) (hvalid : emailMatches (trim (ct.toLowerCase e)) = true)
    (hfresh : ∀ u ∈ db.users, u.email ≠ some (trim (ct.toLowerCase e))) :
    ∃ user db2, createUser ct db now b = (Reply.sent 201 user, db2) ∧
      user.email = some (trim (ct.toLowerCase e)) ∧
      (trim (ct.toLowerCase e) = ct.toLowerCase e → user.email = some (ct.toLowerCase e)) ∧
      user ∈ db2.users ∧
      ∀ (now2 : Nat) (b2 : Body) (e2 : Str), b2.email = some e2 →
        ct.toLowerCase e2 = ct.toLowerCase e →
        createUser ct db2 now2 b2 =
          (Reply.thrown 400 (Failure.message "User with this email already exists"), db2) := by
  have hcast : castField ct Field.email (some e) = some (trim (ct.toLowerCase e)) := rfl
  have hfindNone : findOneByEmail ct db b.email = none := by
    simp only [findOneByEmail, he, hcast, List.find?_eq_none, decide_eq_true_eq]
    exact hfresh
  have hdoc : (newDocument ct db now b).email = some (trim (ct.toLowerCase e)) := by
    simp only [newDocument, he, hcast]
  have hvalidDoc : validate (newDocument ct db now b) = true := by
    have h1 : (newDocument ct db now b).first_name = some (trim fn) := by
      simp [newDocument, hfn, castField]
    have h2 : (newDocument ct db now b).last_name = some (trim ln) := by
      simp [newDocument, hln, castField]
    simp only [validate, requiredOk, h1, h2, hdoc, truthy_some _ hfn2, truthy_some _ hln2,
      truthy_some _ (emailMatches_ne_nil _ hvalid), hvalid, Bool.and_self]
  have hfree :
      emailTaken db (newDocument ct db now b).id (newDocument ct db now b).email = false := by
    rw [hdoc]
    simp only [emailTaken, List.any_eq_false, Bool.and_eq_true, decide_eq_true_eq, not_and]
    intro u hu _
    exact hfresh u hu
  refine ⟨newDocument ct db now b,
    { users := db.users ++ [newDocument ct db now b], nextId := db.nextId + 1 }, ?_, hdoc,
    fun h => by rw [hdoc, h], by simp, ?_⟩
  · simp only [createUser, hfindNone, create, hvalidDoc, hfree, Bool.not_true,
      Bool.false_eq_true, if_false]
  · intro now2 b2 e2 he2 hsame
    have hcast2 : castField ct Field.email (some e2) = some (trim (ct.toLowerCase e)) := by
      show some (trim (ct.toLowerCase e2)) = _
      rw [hsame]
    have hsome : ∃ x, findOneByEmail ct
        { users := db.users ++ [newDocument ct db now b], nextId := db.nextId + 1 } b2.email =
          some x := by
      rw [← Option.isSome_iff_exists]
      simp only [findOneByEmail, he2, hcast2, List.find?_isSome, decide_eq_true_eq]
      exact ⟨newDocument ct db now b, by simp, hdoc⟩
    obtain ⟨x, hx⟩ := hsome
    simp only [createUser, hx]

/-- A first create with ` Eve@X.io ` in a collection that holds `ann` only; and,
with tables that know the Kelvin sign, a first create whose email starts with
it, stored as `kay@x.io`. -/
theorem createUser_email_normalised_then_conflict_witness :
    (∃ user db2, createUser asciiTables dbAnn 9 bodyEve = (Reply.sent 201 user, db2) ∧
      user.email = some (trim (asciiTables.toLowerCase " Eve@X.io ".toList)) ∧
      (trim (asciiTables.toLowerCase " Eve@X.io ".toList) =
          asciiTables.toLowerCase " Eve@X.io ".toList →
        user.email = some (asciiTables.toLowerCase " Eve@X.io ".toList)) ∧
      user ∈ db2.users ∧
      ∀ (now2 : Nat) (b2 : Body) (e2 : Str), b2.email = some e2 →
        asciiTables.toLowerCase e2 = asciiTables.toLowerCase " Eve@X.io ".toList →
        createUser asciiTables db2 now2 b2 =
          (Reply.thrown 400 (Failure.message "User with this email already exists"), db2)) ∧
    (∃ user db2, createUser sampleTables dbAnn 9 bodyKay = (Reply.sent 201 user, db2) ∧
      user.email = some "kay@x.io".toList) :=
  ⟨createUser_email_normalised_then_conflict asciiTables dbAnn 9 bodyEve "Eve".toList
      "Poe".toList " Eve@X.io ".toList rfl (by decide) rfl (by decide) rfl (by decide)
      (by decide),
    (createUser_email_normalised_then_conflict sampleTables dbAnn 9 bodyKay "Kay".toList
      "Low".toList (Char.ofNat 8490 :: "ay@x.io".toList) rfl (by decide) rfl (by decide) rfl
      (by decide) (by decide)).imp fun _ h => h.imp fun _ h2 => ⟨h2.1, h2.2.1⟩⟩

/-! ## Clean-up and the email guard in general -/

/-- A parameter that parses to a non-zero number is used as it is, whatever its sign. -/
theorem numOr_nonzero (k d : Int) (h : k ≠ 0) : numOr (some k) d = k := by
  simp [numOr, h]

/-- When the write stream finishes, the export leaves no temporary file behind,
whatever the outcome of the download. -/
theorem exportUsersCSV_finish_removes_file (ct : CaseTables)
    (db : Db) (fs : FileSystem) (env : ExportEnv)
    (search : Option Str) (p : User → Bool)
    (hq : compileQuery ct (exportQuery (orEmpty search)) = some p)
    (hsome : (findSorted db p).length ≠ 0) (hw : env.write = WriteOutcome.finish) :
    (exportUsersCSV ct db fs env search).fs.hasFile env.now = false := by
  simp only [exportUsersCSV, findAll_of_compile ct db _ p hq, hsome, if_false, hw]
  exact downloadCallback_removes_file _ _ _ _ _

/-- When the write stream ends in `error`, the export leaves the temporary file
and sends nothing. -/
theorem exportUsersCSV_error_keeps_file (ct : CaseTables)
    (db : Db) (fs : FileSystem) (env : ExportEnv)
    (search : Option Str) (p : User → Bool) (written : Nat)
    (hq : compileQuery ct (exportQuery (orEmpty search)) = some p)
    (hsome : (findSorted db p).length ≠ 0) (hw : env.write = WriteOutcome.error written) :
    (exportUsersCSV ct db fs env search).fs.hasFile env.now = true ∧
      (exportUsersCSV ct db fs env search).reply = none := by
  simp only [exportUsersCSV, findAll_of_compile ct db _ p hq, hsome, if_false, hw]
  exact ⟨hasFile_write _ _ _, trivial⟩

/-- Supplying exactly the stored email never takes the conflict branch. -/
theorem emailConflict_same_email (ct : CaseTables) (db : Db) (user : User) (b : Body)
    (h : b.email = user.email) : emailConflict ct db user b = false := by
  simp [emailConflict, h]

/-- Supplying the stored email in another spelling with the same lookup value
takes the conflict branch as soon as the lookup finds a record. -/
theorem emailConflict_variant (ct : CaseTables) (db : Db) (user : User) (b : Body) (e : Str)
    (hb : b.email = some e) (he : e ≠ []) (hne : some e ≠ user.email)
    (hcast : castField ct Field.email (some e) = user.email) (hmem : user ∈ db.users) :
    emailConflict ct db user b = true := by
  have hfound : (findOneByEmail ct db (some e)).isSome = true := by
    simp only [findOneByEmail, List.find?_isSome, decide_eq_true_eq]
    exact ⟨user, hmem, hcast.symm⟩
  simp only [emailConflict, hb, truthy_some e he, hfound, Bool.and_true, Bool.true_and,
    decide_eq_true_eq]
  exact hne

/-! ## Export: the document (C4) -/

theorem intercalate_cons_cons (sep x y : Str) (zs : List Str) :
    sep.intercalate (x :: y :: zs) = x ++ sep ++ sep.intercalate (y :: zs) := by
  simp [List.intercalate, List.intersperse]

theorem intercalate_singleton (sep x : Str) : sep.intercalate [x] = x := by
  simp [List.intercalate, List.intersperse]

/-- Occurrences of a character in a joined list of strings. -/
theorem count_intercalate (a : Char) (sep : Str) (x : Str) (xs : List Str) :
    (sep.intercalate (x :: xs)).count a =
      xs.length * sep.count a + ((x :: xs).map (fun v => v.count a)).sum := by
  induction xs generalizing x with
  | nil => simp [intercalate_singleton]
  | cons y zs ih =>
    rw [intercalate_cons_cons, List.count_append, List.count_append, ih y]
    simp only [List.length_cons, List.map_cons, List.sum_cons]
    ring

theorem count_escapeQuotes (s : Str) : (escapeQuotes s).count '\n' = s.count '\n' := by
  induction s with
  | nil => rfl
  | cons c t ih =>
    unfold escapeQuotes
    split
    · rename_i hc
      have hc2 : c = '"' := by simpa using hc
      subst hc2
      have h1 : ('"' == '\n') = false := by decide
      simp [List.count_cons, ih, h1]
    · simp [List.count_cons, ih]

theorem count_filter_nul (s : Str) :
    (s.filter (fun c => c != Char.ofNat 0)).count '\n' = s.count '\n' := by
  induction s with
  | nil => rfl
  | cons c t ih =>
    by_cases hc : c = Char.ofNat 0
    · subst hc
      have h1 : (Char.ofNat 0 == '\n') = false := by decide
      simp [List.filter_cons, List.count_cons, ih, h1]
    · have h2 : (c != Char.ofNat 0) = true := by simpa using hc
      simp [List.filter_cons, h2, List.count_cons, ih]

/-- Formatting a field adds and removes no line feed. -/
theorem count_formatField (v : Str) : (formatField v).count '\n' = v.count '\n' := by
  have hq : (['"'] : Str).count '\n' = 0 := by decide
  unfold formatField
  simp only
  split
  · rw [List.count_append, List.count_append, hq, count_escapeQuotes, count_filter_nul]
    omega
  · split
    · rw [List.count_append, List.count_append, hq, count_filter_nul]
      omega
    · exact count_filter_nul v

theorem count_formatRow (columns : List Str) :
    (formatRow columns).count '\n' = (columns.map (fun v => v.count '\n')).sum := by
  have hsep : ([','] : Str).count '\n' = 0 := by decide
  unfold formatRow
  cases columns with
  | nil => rfl
  | cons x xs =>
    rw [List.map_cons, count_intercalate, hsep]
    simp [List.map_map, Function.comp_def, count_formatField]

theorem count_csvLine (u : User) : (csvLine u).count '\n' = embeddedLineFeeds u := by
  unfold csvLine embeddedLineFeeds
  exact count_formatRow (csvValues u)

theorem csvObject_titles (u : User) :
    formatRow ((csvObject u).map Prod.fst) = csvHeader := by
  rfl

theorem csvObject_values (u v : User) :
    ((csvObject v).map Prod.fst).map (columnOf (csvObject u)) = csvValues u := by
  rfl

/-- The rows written for a non-empty list of records: the header, then one line
per record. -/
theorem csvRows_users (u : User) (us : List User) :
    csvRows ((u :: us).map csvObject) = csvHeader :: (u :: us).map csvLine := by
  show formatRow ((csvObject u).map Prod.fst) ::
      ((u :: us).map csvObject).map
        (fun o => formatRow (((csvObject u).map Prod.fst).map (columnOf o))) = _
  rw [csvObject_titles, List.map_map]
  congr 1

/-- C4, as stated, fails: one record matches, its address holds a line feed, and
the document has three text lines, not two. -/
theorem exportUsersCSV_lines_counterexample :
    findSorted dbBo (fun _ => true) = [bo] ∧
      (exportUsersCSV asciiTables dbBo fsEmpty
        { now := 3, write := WriteOutcome.finish, download := DownloadOutcome.completed }
        none).reply =
        some (Reply.sent 200 (ExportBody.file "users.csv"
          ("First Name,Last Name,Email,Phone,Address,City,State,Zip Code,Country\n" ++
            "Bo,Li,bo@x.io,,\"1 Main St\nApt 2\",Rome,,,").toList)) ∧
      lineCount ("First Name,Last Name,Email,Phone,Address,City,State,Zip Code,Country\n" ++
            "Bo,Li,bo@x.io,,\"1 Main St\nApt 2\",Rome,,,").toList = 3 := by
  decide

/-- C4, amended: for every non-empty list of N matching records, an export whose
write finishes and whose download completes delivers `users.csv` made of exactly
N+1 rows joined by line feeds: the header row
`First Name,Last Name,Email,Phone,Address,City,State,Zip Code,Country`, then one
row per record in retrieval order (creation time descending), each the record's
nine values in header order, formatted as CSV fields, an absent value as the
empty string. The text has N+1 lines plus one for every line feed inside a
value. -/
theorem exportUsersCSV_rows (ct : CaseTables) (db : Db) (fs : FileSystem) (env : ExportEnv)
    (search : Option Str) (p : User → Bool)
    (hq : compileQuery ct (exportQuery (orEmpty search)) = some p)
    (hsome : ∃ u ∈ db.users, p u = true)
    (hw : env.write = WriteOutcome.finish) (hd : env.download = DownloadOutcome.completed) :
    (exportUsersCSV ct db fs env search).reply =
        some (Reply.sent 200 (ExportBody.file "users.csv"
          (['\n'].intercalate (csvHeader :: (findSorted db p).map csvLine)))) ∧
      (csvHeader :: (findSorted db p).map csvLine).length = (findSorted db p).length + 1 ∧
      List.Sorted newerFirst (findSorted db p) ∧
      (findSorted db p).Perm (db.users.filter p) ∧
      lineCount (['\n'].intercalate (csvHeader :: (findSorted db p).map csvLine)) =
        (findSorted db p).length + 1 + ((findSorted db p).map embeddedLineFeeds).sum := by
  have hpos : (findSorted db p).length ≠ 0 := by
    rw [findSorted_length]
    obtain ⟨u, hu, hpu⟩ := hsome
    have : u ∈ db.users.filter p := List.mem_filter.2 ⟨hu, hpu⟩
    exact List.length_pos_iff_ne_nil.2 (List.ne_nil_of_mem this) |>.ne'
  refine ⟨?_, by simp, findSorted_sorted db p, findSorted_perm db p, ?_⟩
  · cases hus : findSorted db p with
    | nil => rw [hus] at hpos; exact (hpos rfl).elim
    | cons u us =>
      simp only [exportUsersCSV, findAll_of_compile ct db _ p hq, hus, hw, hd, downloadCallback,
        csvFormat, csvRows_users, List.length_cons, Nat.add_one_ne_zero, if_false]
  · have hsep : (['\n'] : Str).count '\n' = 1 := by decide
    have hhead : csvHeader.count '\n' = 0 := by decide
    have hmap : ((findSorted db p).map csvLine).map (fun v => v.count '\n') =
        (findSorted db p).map embeddedLineFeeds := by
      rw [List.map_map]
      apply List.map_congr_left
      intro u _
      exact count_csvLine u
    rw [lineCount, count_intercalate, hsep, List.map_cons, List.sum_cons, hhead, hmap,
      List.length_map]
    omega

/-- The export of a collection of three records. -/
theorem exportUsersCSV_rows_witness :
    (exportUsersCSV asciiTables dbThree fsEmpty
        { now := 3, write := WriteOutcome.finish, download := DownloadOutcome.completed }
        none).reply =
        some (Reply.sent 200 (ExportBody.file "users.csv"
          (['\n'].intercalate (csvHeader :: (findSorted dbThree (fun _ => true)).map csvLine)))) ∧
      (findSorted dbThree (fun _ => true)) = [bo, cy, ann] ∧
      lineCount (['\n'].intercalate
          (csvHeader :: (findSorted dbThree (fun _ => true)).map csvLine)) = 5 :=
  ⟨(exportUsersCSV_rows asciiTables dbThree fsEmpty
      { now := 3, write := WriteOutcome.finish, download := DownloadOutcome.completed }
      none (fun _ => true) rfl ⟨ann, by decide, rfl⟩ rfl rfl).1, by decide, by decide⟩

/-! ## Stored records are normalised -/

theorem trimStart_suffix (s : Str) : trimStart s <:+ s := by
  induction s with
  | nil => exact List.suffix_refl _
  | cons c t ih =>
    unfold trimStart
    split
    · exact List.IsSuffix.trans ih (List.suffix_cons c t)
    · exact List.suffix_refl _

theorem trimStart_head (s : Str) (c : Char) (t : Str) (h : trimStart s = c :: t) :
    isWhiteSpace c = false := by
  induction s with
  | nil => simp [trimStart] at h
  | cons d u ih =>
    unfold trimStart at h
    split at h
    · exact ih h
    · rename_i hd
      simp only [List.cons.injEq] at h
      rw [← h.1]
      simpa using hd

theorem trimStart_idem (s : Str) : trimStart (trimStart s) = trimStart s := by
  cases hs : trimStart s with
  | nil => rfl
  | cons c t => exact trimStart_of_head c t (trimStart_head s c t hs)

theorem trim_idem (s : Str) : trim (trim s) = trim s := by
  unfold trim
  have hA : trimStart (trimStart (trimStart s).reverse).reverse =
      (trimStart (trimStart s).reverse).reverse := by
    cases hr : (trimStart (trimStart s).reverse).reverse with
    | nil => rfl
    | cons c u =>
      have hsuf : trimStart (trimStart s).reverse <:+ (trimStart s).reverse :=
        trimStart_suffix _
      have hpre : (trimStart (trimStart s).reverse).reverse <+: trimStart s := by
        have := List.reverse_prefix.2 hsuf
        simpa using this
      rw [hr] at hpre
      obtain ⟨v, hv⟩ := hpre
      exact trimStart_of_head c u (trimStart_head s c (u ++ v) (by rw [← hv]; rfl))
  rw [hA, List.reverse_reverse, trimStart_idem]

/-- The setters of a path are idempotent. -/
theorem castField_idem (ct : CaseTables) (hlaw : ct.Lawful) (f : Field) (v : Option Str) :
    castField ct f (castField ct f v) = castField ct f v := by
  cases v with
  | none => cases f <;> rfl
  | some s =>
    cases f
    case email =>
      simp only [castField, Option.map_some', Option.some.injEq]
      rw [hlaw.2 (ct.toLowerCase s), hlaw.1 s, trim_idem]
    all_goals simp only [castField, Option.map_some', trim_idem]

theorem newDocument_normalised (ct : CaseTables) (hlaw : ct.Lawful) (db : Db) (now : Nat)
    (b : Body) : (newDocument ct db now b).Normalised ct := by
  intro f
  cases f <;> exact castField_idem ct hlaw _ _

theorem assignFields_normalised (ct : CaseTables) (hlaw : ct.Lawful) (user : User)
    (b : Body) : (assignFields ct user b).Normalised ct := by
  intro f
  rw [assignFields_get]
  exact castField_idem ct hlaw _ _

/-- Every record `createUser` stores is normalised. -/
theorem createUser_normalised (ct : CaseTables) (hlaw : ct.Lawful) (db : Db) (now : Nat)
    (b : Body) (user : User) (db2 : Db) (hdb : ∀ u ∈ db.users, u.Normalised ct)
    (hok : createUser ct db now b = (Reply.sent 201 user, db2)) :
    user.Normalised ct ∧ ∀ u ∈ db2.users, u.Normalised ct := by
  simp only [createUser] at hok
  split at hok
  · simp at hok
  · split at hok
    · simp at hok
    · rename_i u db3 heq
      simp only [Prod.mk.injEq, Reply.sent.injEq, true_and] at hok
      obtain ⟨rfl, rfl⟩ := hok
      simp only [create] at heq
      split at heq
      · simp at heq
      · split at heq
        · simp at heq
        · simp only [Except.ok.injEq, Prod.mk.injEq] at heq
          obtain ⟨rfl, rfl⟩ := heq
          refine ⟨newDocument_normalised ct hlaw db now b, ?_⟩
          intro v hv
          simp only [List.mem_append, List.mem_singleton] at hv
          rcases hv with hv | rfl
          · exact hdb v hv
          · exact newDocument_normalised ct hlaw db now b

theorem mem_replaceUser (saved v : User) (l : List User) (h : v ∈ replaceUser saved l) :
    v = saved ∨ v ∈ l := by
  induction l with
  | nil => simp [replaceUser] at h
  | cons w ws ih =>
    unfold replaceUser at h
    split at h
    · rcases List.mem_cons.1 h with h | h
      · exact Or.inl h
      · exact Or.inr (List.mem_cons_of_mem w h)
    · rcases List.mem_cons.1 h with h | h
      · exact Or.inr (h ▸ List.mem_cons_self w ws)
      · rcases ih h with h | h
        · exact Or.inl h
        · exact Or.inr (List.mem_cons_of_mem w h)

/-- Every record `updateUser` stores is normalised. -/
theorem updateUser_normalised (ct : CaseTables) (hlaw : ct.Lawful) (db : Db) (now id : Nat)
    (b : Body) (saved : User) (db2 : Db) (hdb : ∀ u ∈ db.users, u.Normalised ct)
    (hok : updateUser ct db now id b = (Reply.sent 200 saved, db2)) :
    saved.Normalised ct ∧ ∀ u ∈ db2.users, u.Normalised ct := by
  cases hfind : findById db id with
  | none => simp [updateUser, hfind] at hok
  | some user =>
    obtain ⟨hget, _, _⟩ := updateUser_sent ct db now id b user saved db2 hfind hok
    have hsaved : saved.Normalised ct := by
      intro f
      rw [hget f]
      exact castField_idem ct hlaw _ _
    refine ⟨hsaved, ?_⟩
    simp only [updateUser, hfind] at hok
    split at hok
    · simp at hok
    · split at hok
      · simp at hok
      · rename_i u db3 heq
        simp only [Prod.mk.injEq, Reply.sent.injEq, true_and] at hok
        obtain ⟨rfl, rfl⟩ := hok
        simp only [save] at heq
        split at heq
        · simp at heq
        · split at heq
          · simp at heq
          · simp only [Except.ok.injEq, Prod.mk.injEq] at heq
            obtain ⟨hs, hdb3⟩ := heq
            rw [hs] at hdb3
            intro v hv
            rw [← hdb3] at hv
            rcases mem_replaceUser u v db.users hv with rfl | hv
            · exact hsaved
            · exact hdb v hv

end UserDirectory
